import Mathlib

/-!
Shallow embedding of the address-book program in src/bot_v4.py and a
verification of the specified properties of its core: validated fields
(Name, Phone, Birthday), Record operations, AddressBook operations, the
upcoming-birthdays query, and the save/load persistence round-trip.

Python strings are modelled as Lean String values (sequences of Unicode
code points); Python dates as explicit year/month/day triples with the
proleptic-Gregorian ordinal arithmetic that datetime.date implements.
-/

namespace BotV4

/-- Calendar date, modelling Python datetime.date as a year/month/day triple. -/
structure Date where
  year : Nat
  month : Nat
  day : Nat
deriving DecidableEq

/-- Gregorian leap-year rule, as implemented by Python datetime. -/
def isLeap (y : Nat) : Prop := y % 4 = 0 ∧ (y % 100 ≠ 0 ∨ y % 400 = 0)

instance (y : Nat) : Decidable (isLeap y) := by
  unfold isLeap; infer_instance

/-- Number of days in month m of year y (months numbered 1..12). -/
def daysInMonth (y m : Nat) : Nat :=
  if m = 2 then (if isLeap y then 29 else 28)
  else if m = 4 ∨ m = 6 ∨ m = 9 ∨ m = 11 then 30
  else 31

/-- Dates representable by Python datetime.date (years 1..9999, real calendar dates). -/
def ValidDate (d : Date) : Prop :=
  1 ≤ d.year ∧ d.year ≤ 9999 ∧ 1 ≤ d.month ∧ d.month ≤ 12 ∧
    1 ≤ d.day ∧ d.day ≤ daysInMonth d.year d.month

instance (d : Date) : Decidable (ValidDate d) := by
  unfold ValidDate; infer_instance

/-- Days of year y that lie strictly before month m. -/
def daysBeforeMonth (y m : Nat) : Nat :=
  (List.range (m - 1)).foldl (fun acc i => acc + daysInMonth y (i + 1)) 0

/-- Days lying strictly before January 1 of year y in the proleptic Gregorian calendar. -/
def daysBeforeYear (y : Nat) : Nat :=
  365 * (y - 1) + (y - 1) / 4 - (y - 1) / 100 + (y - 1) / 400

/-- Rata-die day number, modelling Python date.toordinal: 0001-01-01 is day 1. -/
def toOrdinal (d : Date) : Nat :=
  daysBeforeYear d.year + daysBeforeMonth d.year d.month + d.day

/-- Models Python date.weekday: Monday is 0, ..., Saturday is 5, Sunday is 6. -/
def pyWeekday (d : Date) : Nat := (toOrdinal d + 6) % 7

/-- Successor date of a valid date (rolls over month and year ends). -/
def nextDay (d : Date) : Date :=
  if d.day < daysInMonth d.year d.month then ⟨d.year, d.month, d.day + 1⟩
  else if d.month < 12 then ⟨d.year, d.month + 1, 1⟩
  else ⟨d.year + 1, 1, 1⟩

/-- Models Python date + timedelta(days=k) for k ≥ 0. -/
def addDays (d : Date) : Nat → Date
  | 0 => d
  | k + 1 => addDays (nextDay d) k

/-- Models the Python comparison date < date (lexicographic on year, month, day). -/
def dateLt (a b : Date) : Prop :=
  a.year < b.year ∨ (a.year = b.year ∧
    (a.month < b.month ∨ (a.month = b.month ∧ a.day < b.day)))

instance (a b : Date) : Decidable (dateLt a b) := by
  unfold dateLt; infer_instance

/-- Decimal rendering of n padded to two digits, as strftime %d and %m produce. -/
def pad2 (n : Nat) : String := if n < 10 then "0" ++ toString n else toString n

/-- Models date.strftime with the format string used throughout the program,
rendering day.month.year with two-digit day and month. -/
def fmtDate (d : Date) : String :=
  pad2 d.day ++ "." ++ pad2 d.month ++ "." ++ toString d.year

/-- Zero code point of every block of Unicode decimal digits (category Nd,
Unicode 14.0.0, the character database shipped with CPython 3.11): each
block consists of ten consecutive code points whose decimal values are
0 through 9 in order. -/
def ndZeroList : List Nat :=
  [0x30, 0x660, 0x6F0, 0x7C0, 0x966, 0x9E6, 0xA66, 0xAE6, 0xB66, 0xBE6,
   0xC66, 0xCE6, 0xD66, 0xDE6, 0xE50, 0xED0, 0xF20, 0x1040, 0x1090, 0x17E0,
   0x1810, 0x1946, 0x19D0, 0x1A80, 0x1A90, 0x1B50, 0x1BB0, 0x1C40, 0x1C50,
   0xA620, 0xA8D0, 0xA900, 0xA9D0, 0xA9F0, 0xAA50, 0xABF0, 0xFF10, 0x104A0,
   0x10D30, 0x11066, 0x110F0, 0x11136, 0x111D0, 0x112F0, 0x11450, 0x114D0,
   0x11650, 0x116C0, 0x11730, 0x118E0, 0x11950, 0x11C50, 0x11D50, 0x11DA0,
   0x16A60, 0x16AC0, 0x16B50, 0x1D7CE, 0x1D7D8, 0x1D7E2, 0x1D7EC, 0x1D7F6,
   0x1E140, 0x1E2F0, 0x1E950, 0x1FBF0]

/-- Decimal value of a character as recognised by CPython int() and by the
regular-expression class backslash-d that strptime compiles: exactly the
Unicode decimal digits (category Nd), each valued by its offset from the
zero of its block. -/
def decDigitVal (c : Char) : Option Nat :=
  match ndZeroList.find? (fun z => decide (z ≤ c.toNat) && decide (c.toNat ≤ z + 9)) with
  | some z => some (c.toNat - z)
  | none => none

/-- Code points accepted by Python str.isdigit beyond the decimal digits:
the characters of Numeric_Type Digit (superscript, subscript, circled,
parenthesized and full-stop digits and the Ethiopic and Rumi digits),
from the same Unicode 14.0.0 character database. -/
def digitNotDecimalList : List Nat :=
  [0xB2, 0xB3, 0xB9, 0x1369, 0x136A, 0x136B, 0x136C, 0x136D, 0x136E, 0x136F,
   0x1370, 0x1371, 0x19DA, 0x2070, 0x2074, 0x2075, 0x2076, 0x2077, 0x2078,
   0x2079, 0x2080, 0x2081, 0x2082, 0x2083, 0x2084, 0x2085, 0x2086, 0x2087,
   0x2088, 0x2089, 0x2460, 0x2461, 0x2462, 0x2463, 0x2464, 0x2465, 0x2466,
   0x2467, 0x2468, 0x2474, 0x2475, 0x2476, 0x2477, 0x2478, 0x2479, 0x247A,
   0x247B, 0x247C, 0x2488, 0x2489, 0x248A, 0x248B, 0x248C, 0x248D, 0x248E,
   0x248F, 0x2490, 0x24EA, 0x24F5, 0x24F6, 0x24F7, 0x24F8, 0x24F9, 0x24FA,
   0x24FB, 0x24FC, 0x24FD, 0x24FF, 0x2776, 0x2777, 0x2778, 0x2779, 0x277A,
   0x277B, 0x277C, 0x277D, 0x277E, 0x2780, 0x2781, 0x2782, 0x2783, 0x2784,
   0x2785, 0x2786, 0x2787, 0x2788, 0x278A, 0x278B, 0x278C, 0x278D, 0x278E,
   0x278F, 0x2790, 0x2791, 0x2792, 0x10A40, 0x10A41, 0x10A42, 0x10A43,
   0x10E60, 0x10E61, 0x10E62, 0x10E63, 0x10E64, 0x10E65, 0x10E66, 0x10E67,
   0x10E68, 0x11052, 0x11053, 0x11054, 0x11055, 0x11056, 0x11057, 0x11058,
   0x11059, 0x1105A, 0x1F100, 0x1F101, 0x1F102, 0x1F103, 0x1F104, 0x1F105,
   0x1F106, 0x1F107, 0x1F108, 0x1F109, 0x1F10A]

/-- Models Python str.isdigit on one character: true exactly for the
characters of Numeric_Type Decimal or Digit. -/
def pyIsdigitChar (c : Char) : Bool :=
  (decDigitVal c).isSome || digitNotDecimalList.contains c.toNat

/-- Models Python str.isdigit: false on the empty string, else true when
every character is a digit. -/
def pyStrIsdigit (s : String) : Bool :=
  !s.toList.isEmpty && s.toList.all pyIsdigitChar

/-- Models Python str.isspace on one character, restricted to the ASCII
whitespace characters (the ones appearing in this development). -/
def pyIsSpaceChar (c : Char) : Bool :=
  c = ' ' || c = '\t' || c = '\n' || c = '\x0b' || c = '\x0c' || c = '\r'

/-- Errors raised by the program: every field or record failure is a Python
ValueError carrying a message; delete on a missing name raises KeyError;
loading a corrupt blob raises an unpickling error. -/
inductive PyErr where
  | valueError : String → PyErr
  | keyError : String → PyErr
  | unpicklingError : PyErr
deriving DecidableEq

/-- Name field constructor: raises ValueError when the text is empty or
consists only of whitespace (Python: not value or not value.strip());
otherwise stores the raw text. -/
def mkName (value : String) : Except PyErr String :=
  if value.toList.all pyIsSpaceChar then .error (.valueError "Name cannot be empty")
  else .ok value

/-- Phone field constructor: raises ValueError unless value.isdigit() and
the length is exactly 10; otherwise stores the text. -/
def mkPhone (value : String) : Except PyErr String :=
  if ¬ pyStrIsdigit value then .error (.valueError "Phone number must contain only digits")
  else if value.length ≠ 10 then .error (.valueError "Phone number must be exactly 10 digits")
  else .ok value

/-- Reads exactly n decimal digits from the front of cs, accumulating their
value onto acc the way int() does; fails if a non-digit appears first. -/
def readDigits : Nat → Nat → List Char → Option (Nat × List Char)
  | 0, acc, cs => some (acc, cs)
  | _ + 1, _, [] => none
  | n + 1, acc, c :: cs =>
    match decDigitVal c with
    | some v => readDigits n (acc * 10 + v) cs
    | none => none

/-- Value of the two-character day alternatives of the strptime day pattern,
which reads 3[0-1], then [1-2] followed by a Unicode decimal digit, then
0[1-9]; the first character classes are literal ASCII. The int() call on
the matched group yields the value computed here. -/
def dayTwoVal (c1 c2 : Char) : Option Nat :=
  if c1 = '3' then
    (if c2 = '0' ∨ c2 = '1' then some (30 + (c2.toNat - 48)) else none)
  else if c1 = '1' ∨ c1 = '2' then
    (decDigitVal c2).map (fun v => 10 * (c1.toNat - 48) + v)
  else if c1 = '0' then
    (if '1' ≤ c2 ∧ c2 ≤ '9' then some (c2.toNat - 48) else none)
  else none

/-- Value of the two-character month alternatives 1[0-2] and 0[1-9] of the
strptime month pattern (both classes are literal ASCII). -/
def monthTwoVal (c1 c2 : Char) : Option Nat :=
  if c1 = '1' then
    (if c2 = '0' ∨ c2 = '1' ∨ c2 = '2' then some (10 + (c2.toNat - 48)) else none)
  else if c1 = '0' then
    (if '1' ≤ c2 ∧ c2 ≤ '9' then some (c2.toNat - 48) else none)
  else none

/-- The two-character day alternatives, applied to the front of the input. -/
def matchDayTwo : List Char → Option (Nat × List Char)
  | c1 :: c2 :: rest => (dayTwoVal c1 c2).map (fun d => (d, rest))
  | _ => none

/-- The one-character alternative [1-9] shared by the day and month patterns. -/
def matchOne : List Char → Option (Nat × List Char)
  | c :: rest => if '1' ≤ c ∧ c ≤ '9' then some (c.toNat - 48, rest) else none
  | _ => none

/-- The final day alternative, a space followed by [1-9]; int() ignores the
leading space of the matched group. -/
def matchDaySpace : List Char → Option (Nat × List Char)
  | c0 :: c :: rest =>
    if c0 = ' ' ∧ '1' ≤ c ∧ c ≤ '9' then some (c.toNat - 48, rest) else none
  | _ => none

/-- The two-character month alternatives, applied to the front of the input. -/
def matchMonthTwo : List Char → Option (Nat × List Char)
  | c1 :: c2 :: rest => (monthTwoVal c1 c2).map (fun m => (m, rest))
  | _ => none

/-- Final phase of one backtracking attempt: exactly four Unicode decimal
digits of year and then the end of the input (strptime raises on
unconverted trailing data). -/
def yearPhase (d m : Nat) (cs2 : List Char) : Option (Nat × Nat × Nat) :=
  match readDigits 4 0 cs2 with
  | none => none
  | some (y, rest3) => if rest3 = [] then some (d, m, y) else none

/-- Consumes the literal dot of the compiled pattern, then continues. -/
def dotThen (k : List Char → Option (Nat × Nat × Nat)) : List Char → Option (Nat × Nat × Nat)
  | [] => none
  | c :: cs => if c = '.' then k cs else none

/-- Month phase of one backtracking attempt: a month alternative, a literal
dot, then the year phase. -/
def monthPhase (monthM : List Char → Option (Nat × List Char)) (d : Nat)
    (cs1 : List Char) : Option (Nat × Nat × Nat) :=
  match monthM cs1 with
  | none => none
  | some (m, rest2) => dotThen (yearPhase d m) rest2

/-- One backtracking attempt of the regular expression that CPython strptime
compiles for the day.month.year format: a day alternative, a literal dot,
a month alternative, a literal dot, exactly four Unicode decimal digits,
and the end of the input. -/
def tryDM (dayM monthM : List Char → Option (Nat × List Char)) (cs : List Char) :
    Option (Nat × Nat × Nat) :=
  match dayM cs with
  | none => none
  | some (d, rest1) => dotThen (monthPhase monthM d) rest1

/-- Models the regular expression strptime compiles for day.month.year,
namely (3[0-1]|[1-2]d|0[1-9]|[1-9]| [1-9]).(1[0-2]|0[1-9]|[1-9]).(dddd)
with d the Unicode decimal-digit class: the day alternatives are tried in
order (the two-character ones, then [1-9], then the space form), and for
each the month alternatives in order (two characters, then one). -/
def matchDMY (cs : List Char) : Option (Nat × Nat × Nat) :=
  (tryDM matchDayTwo matchMonthTwo cs).orElse fun _ =>
    (tryDM matchDayTwo matchOne cs).orElse fun _ =>
      (tryDM matchOne matchMonthTwo cs).orElse fun _ =>
        (tryDM matchOne matchOne cs).orElse fun _ =>
          (tryDM matchDaySpace matchMonthTwo cs).orElse fun _ =>
            tryDM matchDaySpace matchOne cs

/-- Birthday field constructor: datetime.strptime(value, format) matches the
compiled pattern against the whole string and then builds the datetime,
which checks that the year is at least 1 and the day fits the month;
any failure is caught and re-raised as the ValueError below. The parsed
date, not the source text, is stored. -/
def mkBirthday (value : String) : Except PyErr Date :=
  match matchDMY value.toList with
  | some (d, m, y) =>
    if 1 ≤ y ∧ d ≤ daysInMonth y m then .ok ⟨y, m, d⟩
    else .error (.valueError "Invalid date format. Use DD.MM.YYYY")
  | none => .error (.valueError "Invalid date format. Use DD.MM.YYYY")

/-- One contact: a validated name, an ordered list of phone values
(duplicates allowed), and an optional birthday stored as a date. -/
structure Record where
  name : String
  phones : List String
  birthday : Option Date
deriving DecidableEq

/-- Record constructor: validates the name via the Name field and starts
with no phones and no birthday. -/
def mkRecord (name : String) : Except PyErr Record :=
  match mkName name with
  | .error e => .error e
  | .ok n => .ok ⟨n, [], none⟩

/-- Record.add_phone: Phone(phone) validates (raising before any mutation),
then the new phone is appended. The pair returned is the raised error,
if any, together with the record as it stands afterwards. -/
def Record.add_phone (r : Record) (phone : String) : Option PyErr × Record :=
  match mkPhone phone with
  | .error e => (some e, r)
  | .ok p => (none, { r with phones := r.phones ++ [p] })

/-- Record.find_phone: first phone whose value equals the text, or none. -/
def Record.find_phone (r : Record) (phone : String) : Option String :=
  r.phones.find? (fun p => p == phone)

/-- Record.remove_phone: find_phone locates the first entry with the given
value; list.remove then deletes exactly that entry (Phone objects compare
by identity, and find_phone returned the first value match); if no entry
matches, ValueError is raised and the record is untouched. -/
def Record.remove_phone (r : Record) (phone : String) : Option PyErr × Record :=
  match r.phones.findIdx? (fun p => p == phone) with
  | some i => (none, { r with phones := r.phones.eraseIdx i })
  | none => (some (.valueError ("Phone " ++ phone ++ " not found")), r)

/-- Record.edit_phone: find_phone locates the first entry whose value equals
old_phone, raising ValueError when absent; Phone(new_phone) validates,
propagating its ValueError; list.index then yields the index of that
first matching entry (Phone objects compare by identity) and the entry
at that index is overwritten in place. -/
def Record.edit_phone (r : Record) (old_phone new_phone : String) : Option PyErr × Record :=
  match r.phones.findIdx? (fun p => p == old_phone) with
  | none => (some (.valueError ("Phone " ++ old_phone ++ " not found")), r)
  | some i =>
    match mkPhone new_phone with
    | .error e => (some e, r)
    | .ok p => (none, { r with phones := r.phones.set i p })

/-- Record.add_birthday: Birthday(birthday) validates (raising before any
mutation), then unconditionally replaces the stored birthday. -/
def Record.add_birthday (r : Record) (birthday : String) : Option PyErr × Record :=
  match mkBirthday birthday with
  | .error e => (some e, r)
  | .ok d => (none, { r with birthday := some d })

/-- AddressBook: a UserDict, i.e. an insertion-ordered mapping with unique
keys held in self.data, modelled as an association list. -/
structure AddressBook where
  data : List (String × Record)
deriving DecidableEq

/-- Python dict assignment d[k] = v: replaces the value at k in place when
the key is present, otherwise appends the new binding at the end. -/
def dictSet : List (String × Record) → String → Record → List (String × Record)
  | [], k, v => [(k, v)]
  | (k0, v0) :: rest, k, v =>
    if k0 = k then (k, v) :: rest else (k0, v0) :: dictSet rest k v

/-- AddressBook.add_record: self.data[record.name.value] = record. -/
def AddressBook.add_record (book : AddressBook) (r : Record) : AddressBook :=
  ⟨dictSet book.data r.name r⟩

/-- AddressBook.find: self.data.get(name), absent gives none, never raises. -/
def AddressBook.find (book : AddressBook) (name : String) : Option Record :=
  List.lookup name book.data

/-- AddressBook.delete: del self.data[name] when present, else KeyError. -/
def AddressBook.delete (book : AddressBook) (name : String) : Except PyErr AddressBook :=
  if (List.lookup name book.data).isSome then
    .ok ⟨book.data.eraseP (fun kv => kv.1 == name)⟩
  else .error (.keyError name)

/-- Models date.replace(year=y): succeeds exactly when the resulting triple
is a real date, i.e. fails (ValueError) exactly when the stored day does
not exist in that month of year y. -/
def tryReplaceYear (d : Date) (y : Nat) : Option Date :=
  if d.day ≤ daysInMonth y d.month then some ⟨y, d.month, d.day⟩ else none

/-- The try/except block of get_upcoming_birthdays: birthday_date.replace
(year=y), and on ValueError birthday_date.replace(year=y, day=28). -/
def birthdayInYear (bd : Date) (y : Nat) : Date :=
  match tryReplaceYear bd y with
  | some d => d
  | none => ⟨y, bd.month, 28⟩

/-- The candidate computation of get_upcoming_birthdays: place the birthday
in the current year (with the Feb-29 fallback) and, when that lies
strictly before today, recompute it in the following year. -/
def candidateDate (bd today : Date) : Date :=
  if dateLt (birthdayInYear bd today.year) today then birthdayInYear bd (today.year + 1)
  else birthdayInYear bd today.year

/-- The weekend shift of get_upcoming_birthdays: weekday 5 (Saturday) adds
two days, weekday 6 (Sunday) adds one day, anything else is unchanged. -/
def congratulationDate (c : Date) : Date :=
  if pyWeekday c = 5 then addDays c 2
  else if pyWeekday c = 6 then addDays c 1
  else c

/-- One emitted dictionary of get_upcoming_birthdays. -/
structure BirthdayEntry where
  name : String
  birthday : String
  congratulation_date : String
deriving DecidableEq

/-- The loop body of get_upcoming_birthdays for one record: records without
a birthday are skipped; otherwise the candidate is computed, the integer
day difference (birthday_this_year - today).days is taken, and when it
lies in 0..days inclusive an entry with the formatted candidate and
congratulation dates is produced. -/
def processRecord (today : Date) (days : Int) (r : Record) : Option BirthdayEntry :=
  match r.birthday with
  | none => none
  | some bd =>
    if 0 ≤ (toOrdinal (candidateDate bd today) : Int) - (toOrdinal today : Int)
        ∧ (toOrdinal (candidateDate bd today) : Int) - (toOrdinal today : Int) ≤ days then
      some ⟨r.name, fmtDate (candidateDate bd today),
            fmtDate (congratulationDate (candidateDate bd today))⟩
    else none

/-- AddressBook.get_upcoming_birthdays(days=7): iterates over self.data.values()
in order, today being the current system date, passed here explicitly. -/
def get_upcoming_birthdays (book : AddressBook) (today : Date) (days : Int := 7) :
    List BirthdayEntry :=
  (book.data.map Prod.snd).filterMap (processRecord today days)

/-- Serialized form of one string in the pickle blob: its length followed by
its character code points. -/
def encodeStr (s : String) : List Nat :=
  s.length :: s.toList.map Char.toNat

/-- Decodes one length-prefixed string from the front of a blob. -/
def decodeStr : List Nat → Option (String × List Nat)
  | [] => none
  | n :: rest =>
    if n ≤ rest.length then
      some (String.mk ((rest.take n).map Char.ofNat), rest.drop n)
    else none

/-- Serialized form of an optional birthday date. -/
def encodeOptDate : Option Date → List Nat
  | none => [0]
  | some d => [1, d.year, d.month, d.day]

/-- Decodes an optional birthday date from the front of a blob. -/
def decodeOptDate : List Nat → Option (Option Date × List Nat)
  | 0 :: rest => some (none, rest)
  | 1 :: y :: m :: d :: rest => some (some ⟨y, m, d⟩, rest)
  | _ => none

/-- Serialized form of one record: name, phone count, phones, birthday. -/
def encodeRecord (r : Record) : List Nat :=
  encodeStr r.name ++ (r.phones.length :: (r.phones.map encodeStr).flatten) ++
    encodeOptDate r.birthday

/-- Decodes n length-prefixed strings from the front of a blob. -/
def decodeStrs : Nat → List Nat → Option (List String × List Nat)
  | 0, rest => some ([], rest)
  | n + 1, rest =>
    match decodeStr rest with
    | none => none
    | some (s, rest1) =>
      match decodeStrs n rest1 with
      | none => none
      | some (ss, rest2) => some (s :: ss, rest2)

/-- Decodes one record from the front of a blob. -/
def decodeRecord (blob : List Nat) : Option (Record × List Nat) :=
  match decodeStr blob with
  | none => none
  | some (name, rest1) =>
    match rest1 with
    | [] => none
    | n :: rest2 =>
      match decodeStrs n rest2 with
      | none => none
      | some (phones, rest3) =>
        match decodeOptDate rest3 with
        | none => none
        | some (bd, rest4) => some (⟨name, phones, bd⟩, rest4)

/-- Decodes n key/record bindings from the front of a blob. -/
def decodeEntries : Nat → List Nat → Option (List (String × Record) × List Nat)
  | 0, rest => some ([], rest)
  | n + 1, rest =>
    match decodeStr rest with
    | none => none
    | some (k, rest1) =>
      match decodeRecord rest1 with
      | none => none
      | some (r, rest2) =>
        match decodeEntries n rest2 with
        | none => none
        | some (entries, rest3) => some ((k, r) :: entries, rest3)

/-- Models pickle.dump of the whole AddressBook object graph: a
self-describing blob recording every binding of self.data with its key,
phones in order, and optional birthday. -/
def encodeBook (book : AddressBook) : List Nat :=
  book.data.length ::
    (book.data.map (fun kv => encodeStr kv.1 ++ encodeRecord kv.2)).flatten

/-- Models pickle.load on a blob: reconstructs the AddressBook, or fails on
a corrupt blob. -/
def decodeBook (blob : List Nat) : Option AddressBook :=
  match blob with
  | [] => none
  | n :: rest =>
    match decodeEntries n rest with
    | none => none
    | some (entries, []) => some ⟨entries⟩
    | some (_, _ :: _) => none

/-- File system model for the persistence adapter: each file name maps to
the blob stored under it, none meaning the file does not exist. -/
def FileSys := String → Option (List Nat)

/-- save_data: opens the target for writing, truncating any prior content,
and pickles the whole book into it. -/
def save_data (book : AddressBook) (fs : FileSys) (filename : String := "addressbook.pkl") :
    FileSys :=
  fun f => if f = filename then some (encodeBook book) else fs f

/-- load_data: unpickles the book from the target file; a missing file
(FileNotFoundError) yields a fresh empty AddressBook, while a corrupt
blob lets the unpickling error propagate. -/
def load_data (fs : FileSys) (filename : String := "addressbook.pkl") :
    Except PyErr AddressBook :=
  match fs filename with
  | none => .ok ⟨[]⟩
  | some blob =>
    match decodeBook blob with
    | some book => .ok book
    | none => .error .unpicklingError

/-! Spec-side definitions: restatements, in the words of the specification,
of the candidate computation, the weekend shift, the loose strptime
format, and the strict DD.MM.YYYY shape, to be compared with the
definitions above that embed the source. -/

/-- Written from the spec: the stored birth month/day placed in year y, a
Feb-29 birth date being mapped to Feb 28 when y is not a leap year. -/
def specCandidateInYear (bd : Date) (y : Nat) : Date :=
  if bd.month = 2 ∧ bd.day = 29 ∧ ¬ isLeap y then ⟨y, 2, 28⟩
  else ⟨y, bd.month, bd.day⟩

/-- Written from the spec: the candidate in the current year, recomputed in
the following year (same fallback) when it lies strictly before today. -/
def specCandidate (bd today : Date) : Date :=
  if dateLt (specCandidateInYear bd today.year) today then
    specCandidateInYear bd (today.year + 1)
  else specCandidateInYear bd today.year

/-- Days of the week, named. -/
inductive Weekday where
  | monday | tuesday | wednesday | thursday | friday | saturday | sunday
deriving DecidableEq

/-- Day of the week of a date, fixed by its rata-die number: day 1,
0001-01-01 of the proleptic Gregorian calendar, is a Monday. -/
def dayOfWeek (d : Date) : Weekday :=
  if toOrdinal d % 7 = 1 then .monday
  else if toOrdinal d % 7 = 2 then .tuesday
  else if toOrdinal d % 7 = 3 then .wednesday
  else if toOrdinal d % 7 = 4 then .thursday
  else if toOrdinal d % 7 = 5 then .friday
  else if toOrdinal d % 7 = 6 then .saturday
  else .sunday

/-- Written from the spec: candidates falling on a Saturday shift by two
days, on a Sunday by one day, and are otherwise unchanged. -/
def specCongratulation (c : Date) : Date :=
  if dayOfWeek c = .saturday then addDays c 2
  else if dayOfWeek c = .sunday then addDays c 1
  else c

/-- Decimal value of a digit list, most significant first, as int() reads it. -/
def digitsVal (ds : List Char) : Nat :=
  ds.foldl (fun acc c => acc * 10 + ((decDigitVal c).getD 0)) 0

/-- All characters of the list are decimal digits. -/
def AllDigits (ds : List Char) : Prop := ∀ c ∈ ds, (decDigitVal c).isSome

instance (ds : List Char) : Decidable (AllDigits ds) := by
  unfold AllDigits; infer_instance

/-- Written from the spec of the amended birthday claim: an accepted day
component is a single ASCII digit 1..9, a space followed by such a digit,
or two characters forming a value 1..31 whose first character is an ASCII
digit 0..3, where only a day beginning with 1 or 2 may use a non-ASCII
second digit. -/
def SpecDay (ds : List Char) (d : Nat) : Prop :=
  (∃ c, ds = [c] ∧ '1' ≤ c ∧ c ≤ '9' ∧ d = c.toNat - 48) ∨
  (∃ c, ds = [' ', c] ∧ '1' ≤ c ∧ c ≤ '9' ∧ d = c.toNat - 48) ∨
  (∃ c1 c2 v, ds = [c1, c2] ∧ '0' ≤ c1 ∧ c1 ≤ '3' ∧ decDigitVal c2 = some v ∧
    d = 10 * (c1.toNat - 48) + v ∧ 1 ≤ d ∧ d ≤ 31 ∧
    ((c1 = '0' ∨ c1 = '3') → c2 ≤ '9'))

/-- Written from the spec of the amended birthday claim: an accepted month
component is a single ASCII digit 1..9 or two ASCII digits forming a
value 1..12. -/
def SpecMonth (ms : List Char) (m : Nat) : Prop :=
  (∃ c, ms = [c] ∧ '1' ≤ c ∧ c ≤ '9' ∧ m = c.toNat - 48) ∨
  (∃ c1 c2, ms = [c1, c2] ∧ (c1 = '0' ∨ c1 = '1') ∧ '0' ≤ c2 ∧ c2 ≤ '9' ∧
    m = 10 * (c1.toNat - 48) + (c2.toNat - 48) ∧ 1 ≤ m ∧ m ≤ 12)

/-- Written from the spec of the amended birthday claim: the text decomposes
as a day component, a dot, a month component, a dot, and exactly four
decimal digits of year. -/
def SpecLooseMatch (cs : List Char) (d m y : Nat) : Prop :=
  ∃ ds ms ys, cs = ds ++ '.' :: (ms ++ '.' :: ys) ∧
    SpecDay ds d ∧ SpecMonth ms m ∧
    ys.length = 4 ∧ AllDigits ys ∧ digitsVal ys = y

/-- Written from the spec: the strict DD.MM.YYYY shape, day and month of
exactly two ASCII digits and year of exactly four ASCII digits. -/
def StrictDDMMYYYY (s : String) : Prop :=
  ∃ ds ms ys, s.toList = ds ++ '.' :: (ms ++ '.' :: ys) ∧
    ds.length = 2 ∧ ms.length = 2 ∧ ys.length = 4 ∧
    (∀ c ∈ ds ++ ms ++ ys, '0' ≤ c ∧ c ≤ '9')

/-- Written from the spec: every stored record name matches its key. -/
def nameKeyInv (book : AddressBook) : Bool :=
  book.data.all (fun kv => kv.1 == kv.2.name)

/-- AddressBook states reachable by the program: starting from the empty
book (a fresh AddressBook, as load_data also returns for a missing
file), via add_record, successful delete, and the record-level mutators
applied to a stored record, which mutate the stored object in place. -/
inductive Reachable : AddressBook → Prop where
  | base : Reachable ⟨[]⟩
  | add_record {b : AddressBook} (r : Record) :
      Reachable b → Reachable (b.add_record r)
  | delete_ok {b b' : AddressBook} (name : String) :
      Reachable b → b.delete name = .ok b' → Reachable b'
  | add_phone {b : AddressBook} {k : String} {r : Record} (p : String) :
      Reachable b → List.lookup k b.data = some r →
      Reachable ⟨dictSet b.data k (r.add_phone p).2⟩
  | remove_phone {b : AddressBook} {k : String} {r : Record} (p : String) :
      Reachable b → List.lookup k b.data = some r →
      Reachable ⟨dictSet b.data k (r.remove_phone p).2⟩
  | edit_phone {b : AddressBook} {k : String} {r : Record} (p q : String) :
      Reachable b → List.lookup k b.data = some r →
      Reachable ⟨dictSet b.data k (r.edit_phone p q).2⟩
  | add_birthday {b : AddressBook} {k : String} {r : Record} (s : String) :
      Reachable b → List.lookup k b.data = some r →
      Reachable ⟨dictSet b.data k (r.add_birthday s).2⟩

/-! Helper lemmas about the dictionary model. -/

theorem lookup_dictSet_self (l : List (String × Record)) (k : String) (v : Record) :
    List.lookup k (dictSet l k v) = some v := by
  induction l with
  | nil => simp [dictSet, List.lookup]
  | cons kv rest ih =>
    obtain ⟨k0, v0⟩ := kv
    by_cases h : k0 = k
    · simp [dictSet, h, List.lookup]
    · simp only [dictSet, if_neg h, List.lookup]
      have : (k == k0) = false := by
        simp [Ne.symm h]
      rw [this]
      exact ih

theorem mem_dictSet {l : List (String × Record)} {k : String} {v : Record}
    {kv : String × Record} (h : kv ∈ dictSet l k v) : kv ∈ l ∨ kv = (k, v) := by
  induction l with
  | nil => simp [dictSet] at h; right; exact h
  | cons kv0 rest ih =>
    obtain ⟨k0, v0⟩ := kv0
    by_cases hk : k0 = k
    · simp only [dictSet, if_pos hk] at h
      rcases List.mem_cons.mp h with h1 | h2
      · right; exact h1
      · left; exact List.mem_cons_of_mem _ h2
    · simp only [dictSet, if_neg hk] at h
      rcases List.mem_cons.mp h with h1 | h2
      · left; exact h1 ▸ List.mem_cons_self _ _
      · rcases ih h2 with h3 | h4
        · left; exact List.mem_cons_of_mem _ h3
        · right; exact h4

theorem lookup_mem {l : List (String × Record)} {k : String} {r : Record}
    (h : List.lookup k l = some r) : (k, r) ∈ l := by
  induction l with
  | nil => simp [List.lookup] at h
  | cons kv rest ih =>
    obtain ⟨k0, v0⟩ := kv
    simp only [List.lookup] at h
    cases hbeq : k == k0
    · rw [hbeq] at h
      exact List.mem_cons_of_mem _ (ih h)
    · rw [hbeq] at h
      injection h with h
      have hk : k = k0 := by simpa using hbeq
      exact hk ▸ h ▸ List.mem_cons_self _ _

/-! Helper lemmas: no record mutator ever changes the stored name. -/

theorem add_phone_name (r : Record) (p : String) :
    (r.add_phone p).2.name = r.name := by
  unfold Record.add_phone
  cases mkPhone p <;> rfl

theorem remove_phone_name (r : Record) (p : String) :
    (r.remove_phone p).2.name = r.name := by
  unfold Record.remove_phone
  cases r.phones.findIdx? (fun q => q == p) <;> rfl

theorem edit_phone_name (r : Record) (p q : String) :
    (r.edit_phone p q).2.name = r.name := by
  unfold Record.edit_phone
  cases r.phones.findIdx? (fun x => x == p)
  · rfl
  · cases mkPhone q <;> rfl

theorem add_birthday_name (r : Record) (s : String) :
    (r.add_birthday s).2.name = r.name := by
  unfold Record.add_birthday
  cases mkBirthday s <;> rfl

/-- Claim C6. AddRecord followed by Find with the stored name returns exactly
the inserted record, whose name is the input name; any previously stored
record under that name is overwritten entirely, its phones no longer
reachable under the name; and AddRecord is total, never failing on a
duplicate name. -/
theorem addRecord_find_overwrites (book : AddressBook) (r : Record) :
    (book.add_record r).find r.name = some r
    ∧ (∀ r', (book.add_record r).find r.name = some r' →
        r'.name = r.name ∧ r'.phones = r.phones ∧ r'.birthday = r.birthday) := by
  have h : (book.add_record r).find r.name = some r :=
    lookup_dictSet_self book.data r.name r
  refine ⟨h, fun r' hr' => ?_⟩
  rw [h] at hr'
  injection hr' with hr'
  rw [hr']
  exact ⟨rfl, rfl, rfl⟩

/-- Witness for C6 at a concrete book and record. -/
theorem addRecord_find_overwrites_witness :
    (AddressBook.find
      (AddressBook.add_record ⟨[("John", ⟨"John", ["1234567890"], none⟩)]⟩
        ⟨"John", ["0987654321"], none⟩) "John") = some ⟨"John", ["0987654321"], none⟩
    ∧ ∀ r', (AddressBook.find
      (AddressBook.add_record ⟨[("John", ⟨"John", ["1234567890"], none⟩)]⟩
        ⟨"John", ["0987654321"], none⟩) "John") = some r' →
        r'.name = "John" ∧ r'.phones = ["0987654321"] ∧ r'.birthday = none :=
  addRecord_find_overwrites ⟨[("John", ⟨"John", ["1234567890"], none⟩)]⟩
    ⟨"John", ["0987654321"], none⟩

/-- Claim C9. Loading from a target that does not exist returns a fresh
empty AddressBook and never fails. -/
theorem load_missing_gives_empty (fs : FileSys) (target : String)
    (h : fs target = none) : load_data fs target = .ok ⟨[]⟩ := by
  unfold load_data
  rw [h]

/-- Witness for C9 on the empty file system. -/
theorem load_missing_gives_empty_witness :
    load_data (fun _ => none) "addressbook.pkl" = .ok ⟨[]⟩ :=
  load_missing_gives_empty (fun _ => none) "addressbook.pkl" rfl

/-- Claim C10. Every record mutator is atomic on error: when add_phone,
remove_phone, edit_phone or add_birthday raises, the record is returned
exactly as it was, phones and birthday untouched. -/
theorem mutators_atomic_on_error (r : Record) (p q s : String) :
    (∀ e, (r.add_phone p).1 = some e → (r.add_phone p).2 = r)
    ∧ (∀ e, (r.remove_phone p).1 = some e → (r.remove_phone p).2 = r)
    ∧ (∀ e, (r.edit_phone p q).1 = some e → (r.edit_phone p q).2 = r)
    ∧ (∀ e, (r.add_birthday s).1 = some e → (r.add_birthday s).2 = r) := by
  refine ⟨fun e h => ?_, fun e h => ?_, fun e h => ?_, fun e h => ?_⟩
  · unfold Record.add_phone at h ⊢
    cases hm : mkPhone p
    · rfl
    · rw [hm] at h
      exact Option.noConfusion h
  · unfold Record.remove_phone at h ⊢
    cases hm : r.phones.findIdx? (fun x => x == p)
    · rfl
    · rw [hm] at h
      exact Option.noConfusion h
  · unfold Record.edit_phone at h ⊢
    cases hm : r.phones.findIdx? (fun x => x == p)
    · rfl
    · cases hq : mkPhone q
      · rfl
      · rw [hm, hq] at h
        exact Option.noConfusion h
  · unfold Record.add_birthday at h ⊢
    cases hm : mkBirthday s
    · rfl
    · rw [hm] at h
      exact Option.noConfusion h

/-- Witness for C10: a failing add_phone (validation error) leaves the
concrete record untouched. -/
theorem mutators_atomic_on_error_witness :
    (Record.add_phone ⟨"A", ["1111111111"], none⟩ "12").1 =
      some (PyErr.valueError "Phone number must be exactly 10 digits")
    ∧ (Record.add_phone ⟨"A", ["1111111111"], none⟩ "12").2 =
      ⟨"A", ["1111111111"], none⟩ :=
  ⟨by decide,
    (mutators_atomic_on_error ⟨"A", ["1111111111"], none⟩ "12" "x" "y").1
      (PyErr.valueError "Phone number must be exactly 10 digits") (by decide)⟩

/-- Claim C7. edit_phone raises the not-found ValueError, leaving the record
unchanged, when no phone equals the old text; propagates the Phone
validation error for the new text; and otherwise replaces the first
matching entry in place at its position, leaving every other entry and
the rest of the record unchanged. The closing conjuncts check the
concrete example: a record holding 1111111111 edited to 2222222222 no
longer finds the old number, finds the new one, at the same position. -/
theorem edit_phone_spec (r : Record) (oldp newp : String) :
    (r.find_phone oldp = none →
      r.edit_phone oldp newp =
        (some (PyErr.valueError ("Phone " ++ oldp ++ " not found")), r))
    ∧ (∀ e i, r.phones.findIdx? (fun q => q == oldp) = some i →
        mkPhone newp = .error e → r.edit_phone oldp newp = (some e, r))
    ∧ (∀ i p, r.phones.findIdx? (fun q => q == oldp) = some i →
        mkPhone newp = .ok p →
        r.edit_phone oldp newp = (none, { r with phones := r.phones.set i p })
        ∧ (∀ j, j ≠ i → (r.phones.set i p)[j]? = r.phones[j]?)
        ∧ (r.phones.set i p)[i]? = some p)
    ∧ (Record.edit_phone ⟨"John", ["1111111111"], none⟩ "1111111111"
        "2222222222").2.find_phone "1111111111" = none
    ∧ (Record.edit_phone ⟨"John", ["1111111111"], none⟩ "1111111111"
        "2222222222").2.find_phone "2222222222" = some "2222222222"
    ∧ (Record.edit_phone ⟨"John", ["1111111111"], none⟩ "1111111111"
        "2222222222").2.phones = ["2222222222"] := by
  refine ⟨fun h => ?_, fun e i hi he => ?_, fun i p hi hp => ?_,
    by decide, by decide, by decide⟩
  · unfold Record.find_phone at h
    rw [List.find?_eq_none] at h
    have hnone : r.phones.findIdx? (fun q => q == oldp) = none := by
      rw [List.findIdx?_eq_none_iff]
      intro x hx
      have := h x hx
      simpa using this
    unfold Record.edit_phone
    rw [hnone]
  · unfold Record.edit_phone
    rw [hi, he]
  · unfold Record.edit_phone
    rw [hi, hp]
    have hlt : i < r.phones.length := by
      rcases List.findIdx?_eq_some_iff_getElem.mp hi with ⟨hl, _⟩
      exact hl
    exact ⟨rfl, fun j hj => List.getElem?_set_ne (Ne.symm hj),
      List.getElem?_set_self hlt⟩

/-- Witness for C7: editing the only phone of the concrete record replaces
it in place. -/
theorem edit_phone_spec_witness :
    Record.edit_phone ⟨"John", ["1111111111"], none⟩ "1111111111" "2222222222" =
      (none, { Record.mk "John" ["1111111111"] none with
        phones := (["1111111111"] : List String).set 0 "2222222222" })
    ∧ ((["1111111111"] : List String).set 0 "2222222222")[0]? = some "2222222222" :=
  ⟨((edit_phone_spec ⟨"John", ["1111111111"], none⟩ "1111111111" "2222222222").2.2.1
      0 "2222222222" (by decide) rfl).1,
    ((edit_phone_spec ⟨"John", ["1111111111"], none⟩ "1111111111" "2222222222").2.2.1
      0 "2222222222" (by decide) rfl).2.2⟩

/-! Claim C8: the name/key invariant over all reachable book states. -/

theorem nameKeyInv_step {l : List (String × Record)} {k : String} {v : Record}
    (hl : ∀ kv ∈ l, kv.1 = kv.2.name) (hv : k = v.name) :
    ∀ kv ∈ dictSet l k v, kv.1 = kv.2.name := by
  intro kv hkv
  rcases mem_dictSet hkv with h | h
  · exact hl kv h
  · rw [h]
    exact hv

/-- Claim C8. In every reachable AddressBook state, built from the empty
book by add_record, delete and the record-level mutators, every stored
record's name equals the key it is stored under. -/
theorem reachable_name_matches_key (b : AddressBook) (h : Reachable b) :
    nameKeyInv b = true := by
  have main : ∀ kv ∈ b.data, kv.1 = kv.2.name := by
    induction h with
    | base => intro kv hkv; simp at hkv
    | add_record r hb ih => exact nameKeyInv_step ih rfl
    | delete_ok name hb hdel ih =>
      unfold AddressBook.delete at hdel
      split at hdel
      · injection hdel with hdel
        subst hdel
        intro kv hkv
        exact ih kv (List.mem_of_mem_eraseP hkv)
      · exact Except.noConfusion hdel
    | add_phone p hb hlook ih =>
      exact nameKeyInv_step ih ((ih _ (lookup_mem hlook)).trans (add_phone_name _ p).symm)
    | remove_phone p hb hlook ih =>
      exact nameKeyInv_step ih ((ih _ (lookup_mem hlook)).trans (remove_phone_name _ p).symm)
    | edit_phone p q hb hlook ih =>
      exact nameKeyInv_step ih ((ih _ (lookup_mem hlook)).trans (edit_phone_name _ p q).symm)
    | add_birthday s hb hlook ih =>
      exact nameKeyInv_step ih ((ih _ (lookup_mem hlook)).trans (add_birthday_name _ s).symm)
  unfold nameKeyInv
  rw [List.all_eq_true]
  intro kv hkv
  simpa using main kv hkv

/-- Witness for C8 at a concrete reachable two-step book state. -/
theorem reachable_name_matches_key_witness :
    nameKeyInv (AddressBook.add_record
      (AddressBook.add_record ⟨[]⟩ ⟨"John", ["1234567890"], none⟩)
      ⟨"Jane", [], none⟩) = true :=
  reachable_name_matches_key _
    (Reachable.add_record _ (Reachable.add_record _ Reachable.base))

/-! Claim C3: the persistence round-trip, via the serialization model. -/

theorem map_ofNat_map_toNat (l : List Char) :
    List.map Char.ofNat (List.map Char.toNat l) = l := by
  induction l with
  | nil => rfl
  | cons c l ih => simp [ih, Char.ofNat_toNat]

theorem decodeStr_encodeStr (s : String) (rest : List Nat) :
    decodeStr (encodeStr s ++ rest) = some (s, rest) := by
  have hlen : s.length = (s.toList.map Char.toNat).length := by
    rw [List.length_map]
    rfl
  unfold encodeStr decodeStr
  simp only [List.cons_append]
  rw [if_pos]
  · rw [List.take_left' hlen.symm, List.drop_left' hlen.symm]
    rw [map_ofNat_map_toNat]
    rfl
  · rw [hlen, List.length_append]
    exact Nat.le_add_right _ _

theorem decodeStrs_encode (ps : List String) (rest : List Nat) :
    decodeStrs ps.length ((ps.map encodeStr).flatten ++ rest) = some (ps, rest) := by
  induction ps generalizing rest with
  | nil => simp [decodeStrs]
  | cons p ps ih =>
    simp only [List.map_cons, List.flatten_cons, List.length_cons, List.append_assoc]
    unfold decodeStrs
    simp only [decodeStr_encodeStr, ih]

theorem decodeOptDate_encode (bd : Option Date) (rest : List Nat) :
    decodeOptDate (encodeOptDate bd ++ rest) = some (bd, rest) := by
  cases bd with
  | none => rfl
  | some d => rfl

theorem decodeRecord_encode (r : Record) (rest : List Nat) :
    decodeRecord (encodeRecord r ++ rest) = some (r, rest) := by
  unfold encodeRecord decodeRecord
  simp only [List.append_assoc, List.cons_append]
  simp only [decodeStr_encodeStr, decodeStrs_encode, decodeOptDate_encode]

theorem decodeEntries_encode (entries : List (String × Record)) (rest : List Nat) :
    decodeEntries entries.length
      ((entries.map (fun kv => encodeStr kv.1 ++ encodeRecord kv.2)).flatten ++ rest) =
      some (entries, rest) := by
  induction entries generalizing rest with
  | nil => simp [decodeEntries]
  | cons kv entries ih =>
    simp only [List.map_cons, List.flatten_cons, List.length_cons, List.append_assoc]
    unfold decodeEntries
    simp only [decodeStr_encodeStr, decodeRecord_encode, ih]

theorem decodeBook_encodeBook (book : AddressBook) :
    decodeBook (encodeBook book) = some book := by
  unfold encodeBook decodeBook
  have h := decodeEntries_encode book.data []
  rw [List.append_nil] at h
  simp only [h]

/-- Claim C3. Saving any AddressBook to a target and loading from that same
target succeeds and yields a book with identical contents: the very same
bindings, hence the same names, the same phone lists in the same order,
and the same birthdays. -/
theorem save_load_roundtrip (book : AddressBook) (fs : FileSys) (target : String) :
    load_data (save_data book fs target) target = .ok book := by
  unfold load_data save_data
  simp [decodeBook_encodeBook]

/-! Claim C4: phone validation. The code uses str.isdigit, which also
accepts non-ASCII digit characters, so the claim as stated fails. First
some lemmas about characters and the Unicode digit tables. -/

theorem char_toNat_eq {a b : Char} (h : a.toNat = b.toNat) : a = b :=
  Char.ext (UInt32.toNat.inj h)

theorem char_le_iff_toNat {a b : Char} : a ≤ b ↔ a.toNat ≤ b.toNat := by
  rw [Char.le_def]
  constructor
  · intro h
    exact h
  · intro h
    exact h

theorem ndZero_ascii_or_big : ∀ z ∈ ndZeroList, z = 48 ∨ 1632 ≤ z := by decide

theorem decDigitVal_le_9 {c : Char} {v : Nat} (h : decDigitVal c = some v) : v ≤ 9 := by
  unfold decDigitVal at h
  cases hf : ndZeroList.find? (fun z => decide (z ≤ c.toNat) && decide (c.toNat ≤ z + 9)) with
  | none =>
    rw [hf] at h
    exact Option.noConfusion h
  | some z =>
    rw [hf] at h
    injection h with h
    have hp := List.find?_some hf
    simp only [Bool.and_eq_true, decide_eq_true_eq] at hp
    omega

theorem decDigitVal_ascii {c : Char} {v : Nat} (h : decDigitVal c = some v)
    (hle : c ≤ '9') : '0' ≤ c ∧ c ≤ '9' ∧ v = c.toNat - 48 ∧ 48 ≤ c.toNat := by
  have hle' : c.toNat ≤ ('9' : Char).toNat := char_le_iff_toNat.mp hle
  have e9 : ('9' : Char).toNat = 57 := by decide
  have e0 : ('0' : Char).toNat = 48 := by decide
  unfold decDigitVal at h
  cases hf : ndZeroList.find? (fun z => decide (z ≤ c.toNat) && decide (c.toNat ≤ z + 9)) with
  | none =>
    rw [hf] at h
    exact Option.noConfusion h
  | some z =>
    rw [hf] at h
    injection h with h
    have hp := List.find?_some hf
    simp only [Bool.and_eq_true, decide_eq_true_eq] at hp
    have hz := ndZero_ascii_or_big z (List.mem_of_find?_eq_some hf)
    exact ⟨char_le_iff_toNat.mpr (by omega), hle, by omega, by omega⟩

theorem decDigitVal_of_ascii {c : Char} (h1 : '0' ≤ c) (h2 : c ≤ '9') :
    decDigitVal c = some (c.toNat - 48) := by
  have h1' : ('0' : Char).toNat ≤ c.toNat := char_le_iff_toNat.mp h1
  have h2' : c.toNat ≤ ('9' : Char).toNat := char_le_iff_toNat.mp h2
  have e0 : ('0' : Char).toNat = 48 := by decide
  have e9 : ('9' : Char).toNat = 57 := by decide
  unfold decDigitVal ndZeroList
  rw [List.find?_cons_of_pos _ (by
    simp only [Bool.and_eq_true, decide_eq_true_eq]
    omega)]

theorem ascii_digit_isdigit {c : Char} (h : '0' ≤ c ∧ c ≤ '9') :
    pyIsdigitChar c = true := by
  unfold pyIsdigitChar
  rw [decDigitVal_of_ascii h.1 h.2]
  rfl

/-- Counterexample to claim C4 as stated: the string of ten SUPERSCRIPT ONE
characters contains no ASCII decimal digit at all, yet Phone construction
accepts it, because Python str.isdigit is true on superscript digits. -/
theorem phone_counterexample :
    (∀ c ∈ "¹¹¹¹¹¹¹¹¹¹".toList, ¬('0' ≤ c ∧ c ≤ '9'))
    ∧ mkPhone "¹¹¹¹¹¹¹¹¹¹" = .ok "¹¹¹¹¹¹¹¹¹¹" := by
  refine ⟨by decide, ?_⟩
  rfl

/-- Claim C4, amended: Phone construction succeeds exactly on strings of ten
characters each accepted by Python str.isdigit; in particular it succeeds
on every string of ten ASCII decimal digits, and it stores the input text
itself. It fails for every other string, in particular whenever the
length differs from 10. -/
theorem phone_validation (s : String) :
    ((∃ p, mkPhone s = .ok p) ↔ (s.length = 10 ∧ ∀ c ∈ s.toList, pyIsdigitChar c))
    ∧ (∀ p, mkPhone s = .ok p → p = s)
    ∧ (s.length = 10 → (∀ c ∈ s.toList, '0' ≤ c ∧ c ≤ '9') → mkPhone s = .ok s) := by
  have hlen : s.length = s.toList.length := rfl
  have hiff : (!s.toList.isEmpty && s.toList.all pyIsdigitChar) = true ↔
      (s.toList ≠ [] ∧ ∀ c ∈ s.toList, pyIsdigitChar c = true) := by
    simp [List.isEmpty_iff]
  by_cases hd : (!s.toList.isEmpty && s.toList.all pyIsdigitChar) = true
  · by_cases h10 : s.length = 10
    · have hok : mkPhone s = .ok s := by
        unfold mkPhone pyStrIsdigit
        rw [if_neg (fun hcon => hcon hd), if_neg (fun hcon => hcon h10)]
      have hall : ∀ c ∈ s.toList, pyIsdigitChar c = true := (hiff.mp hd).2
      refine ⟨⟨fun _ => ⟨h10, hall⟩, fun _ => ⟨s, hok⟩⟩, fun p hp => ?_, fun _ _ => hok⟩
      rw [hok] at hp
      injection hp with hp
      exact hp.symm
    · have herr : mkPhone s = .error (.valueError "Phone number must be exactly 10 digits") := by
        unfold mkPhone pyStrIsdigit
        rw [if_neg (fun hcon => hcon hd), if_pos h10]
      refine ⟨⟨fun ⟨p, hp⟩ => ?_, fun ⟨h, _⟩ => absurd h h10⟩, fun p hp => ?_,
        fun h _ => absurd h h10⟩
      · rw [herr] at hp
        exact Except.noConfusion hp
      · rw [herr] at hp
        exact Except.noConfusion hp
  · have herr : mkPhone s = .error (.valueError "Phone number must contain only digits") := by
      unfold mkPhone pyStrIsdigit
      rw [if_pos hd]
    have hnotall : ¬(s.length = 10 ∧ ∀ c ∈ s.toList, pyIsdigitChar c = true) := by
      rintro ⟨h10, hall⟩
      apply hd
      refine hiff.mpr ⟨?_, hall⟩
      intro hnil
      rw [hlen, hnil] at h10
      simp at h10
    refine ⟨⟨fun ⟨p, hp⟩ => ?_, fun h => absurd h hnotall⟩, fun p hp => ?_,
      fun h10 hall => ?_⟩
    · rw [herr] at hp
      exact Except.noConfusion hp
    · rw [herr] at hp
      exact Except.noConfusion hp
    · exact absurd ⟨h10, fun c hc => ascii_digit_isdigit (hall c hc)⟩ hnotall

/-- Witness for C4 amended, at a concrete all-ASCII ten-digit string. -/
theorem phone_validation_witness :
    mkPhone "0123456789" = .ok "0123456789" :=
  (phone_validation "0123456789").2.2 (by decide) (by decide)

/-! Claims C1 and C2: the upcoming-birthdays computation. -/

theorem daysInMonth_ne_two (y y' m : Nat) (hm : m ≠ 2) :
    daysInMonth y m = daysInMonth y' m := by
  unfold daysInMonth
  rw [if_neg hm, if_neg hm]

theorem daysInMonth_feb (y : Nat) :
    daysInMonth y 2 = if isLeap y then 29 else 28 := by
  unfold daysInMonth
  rw [if_pos rfl]

theorem birthdayInYear_eq_spec (bd : Date) (hv : ValidDate bd) (y : Nat) :
    birthdayInYear bd y = specCandidateInYear bd y := by
  obtain ⟨hy1, hy2, hm1, hm2, hd1, hd2⟩ := hv
  unfold birthdayInYear tryReplaceYear specCandidateInYear
  by_cases hm : bd.month = 2
  · by_cases hd : bd.day = 29
    · by_cases hl : isLeap y
      · rw [if_pos (by rw [hm, daysInMonth_feb, if_pos hl, hd]),
          if_neg (by rintro ⟨_, _, h⟩; exact h hl)]
      · rw [if_neg (by rw [hm, daysInMonth_feb, if_neg hl, hd]; omega),
          if_pos ⟨hm, hd, hl⟩, hm]
    · have h28 : bd.day ≤ 28 := by
        rw [hm, daysInMonth_feb] at hd2
        by_cases hl : isLeap bd.year
        · rw [if_pos hl] at hd2; omega
        · rw [if_neg hl] at hd2; omega
      rw [if_pos (by rw [hm, daysInMonth_feb]; split <;> omega),
        if_neg (by rintro ⟨_, h, _⟩; exact hd h)]
  · rw [if_pos (by rw [daysInMonth_ne_two y bd.year bd.month hm]; exact hd2),
      if_neg (by rintro ⟨h, _⟩; exact hm h)]

theorem candidateDate_eq_spec (bd today : Date) (hv : ValidDate bd) :
    candidateDate bd today = specCandidate bd today := by
  unfold candidateDate specCandidate
  rw [birthdayInYear_eq_spec bd hv, birthdayInYear_eq_spec bd hv]

theorem processRecord_some (today : Date) (days : Int) (r : Record) (bd : Date)
    (hb : r.birthday = some bd) :
    processRecord today days r =
      if 0 ≤ (toOrdinal (candidateDate bd today) : Int) - (toOrdinal today : Int)
          ∧ (toOrdinal (candidateDate bd today) : Int) - (toOrdinal today : Int) ≤ days then
        some ⟨r.name, fmtDate (candidateDate bd today),
              fmtDate (congratulationDate (candidateDate bd today))⟩
      else none := by
  unfold processRecord
  rw [hb]

/-- Claim C1. The candidate computed by get_upcoming_birthdays equals the
spec's description (month/day in the current year, Feb-29 mapped to
Feb 28 in a non-leap year, recomputed in the next year when strictly
before today); a record with a birthday enters the result exactly when
the day difference candidate minus today lies between 0 and windowDays
inclusive; the default window is 7; and a birth date of 29.02.2000
placed into 2025 gives 28.02.2025. -/
theorem upcoming_birthdays_window (book : AddressBook) (today : Date) (days : Int)
    (r : Record) (bd : Date) (hv : ValidDate bd) (hb : r.birthday = some bd) :
    candidateDate bd today = specCandidate bd today
    ∧ ((processRecord today days r).isSome ↔
        (0 ≤ (toOrdinal (specCandidate bd today) : Int) - (toOrdinal today : Int)
          ∧ (toOrdinal (specCandidate bd today) : Int) - (toOrdinal today : Int) ≤ days))
    ∧ (∀ e, e ∈ get_upcoming_birthdays book today days ↔
        ∃ rec, rec ∈ book.data.map Prod.snd ∧ processRecord today days rec = some e)
    ∧ get_upcoming_birthdays book today = get_upcoming_birthdays book today 7
    ∧ birthdayInYear ⟨2000, 2, 29⟩ 2025 = ⟨2025, 2, 28⟩ := by
  have hc := candidateDate_eq_spec bd today hv
  refine ⟨hc, ?_, ?_, rfl, by decide⟩
  · rw [← hc, processRecord_some today days r bd hb]
    by_cases hcond : (0 ≤ (toOrdinal (candidateDate bd today) : Int) - (toOrdinal today : Int)
        ∧ (toOrdinal (candidateDate bd today) : Int) - (toOrdinal today : Int) ≤ days)
    · rw [if_pos hcond]
      simpa using hcond
    · rw [if_neg hcond]
      simpa using hcond
  · intro e
    unfold get_upcoming_birthdays
    rw [List.mem_filterMap]

/-- Witness for C1: a record with birthday 10.06.1990 on today 10.06.2024
with the default window. -/
theorem upcoming_birthdays_window_witness :
    candidateDate ⟨1990, 6, 10⟩ ⟨2024, 6, 10⟩ = specCandidate ⟨1990, 6, 10⟩ ⟨2024, 6, 10⟩
    ∧ ((processRecord ⟨2024, 6, 10⟩ 7 ⟨"John", [], some ⟨1990, 6, 10⟩⟩).isSome ↔
        (0 ≤ (toOrdinal (specCandidate ⟨1990, 6, 10⟩ ⟨2024, 6, 10⟩) : Int)
            - (toOrdinal (⟨2024, 6, 10⟩ : Date) : Int)
          ∧ (toOrdinal (specCandidate ⟨1990, 6, 10⟩ ⟨2024, 6, 10⟩) : Int)
            - (toOrdinal (⟨2024, 6, 10⟩ : Date) : Int) ≤ 7))
    ∧ (∀ e, e ∈ get_upcoming_birthdays ⟨[("John", ⟨"John", [], some ⟨1990, 6, 10⟩⟩)]⟩
          ⟨2024, 6, 10⟩ 7 ↔
        ∃ rec, rec ∈ (⟨[("John", ⟨"John", [], some ⟨1990, 6, 10⟩⟩)]⟩ :
            AddressBook).data.map Prod.snd ∧
          processRecord ⟨2024, 6, 10⟩ 7 rec = some e)
    ∧ get_upcoming_birthdays ⟨[("John", ⟨"John", [], some ⟨1990, 6, 10⟩⟩)]⟩ ⟨2024, 6, 10⟩ =
        get_upcoming_birthdays ⟨[("John", ⟨"John", [], some ⟨1990, 6, 10⟩⟩)]⟩ ⟨2024, 6, 10⟩ 7
    ∧ birthdayInYear ⟨2000, 2, 29⟩ 2025 = ⟨2025, 2, 28⟩ :=
  upcoming_birthdays_window ⟨[("John", ⟨"John", [], some ⟨1990, 6, 10⟩⟩)]⟩ ⟨2024, 6, 10⟩ 7
    ⟨"John", [], some ⟨1990, 6, 10⟩⟩ ⟨1990, 6, 10⟩ (by decide) rfl

theorem congratulation_eq_spec (c : Date) :
    congratulationDate c = specCongratulation c := by
  unfold congratulationDate specCongratulation dayOfWeek pyWeekday
  have h : toOrdinal c % 7 < 7 := Nat.mod_lt _ (by omega)
  rw [Nat.add_mod]
  generalize toOrdinal c % 7 = n at h ⊢
  interval_cases n <;> simp

/-- Claim C2. Every entry emitted by get_upcoming_birthdays comes from a
record with a birthday, carries that record's name, the candidate date
formatted day.month.year, and a congratulation date that is the candidate
plus two days when the candidate falls on a Saturday, plus one day when
it falls on a Sunday, and the candidate itself otherwise, formatted the
same way. -/
theorem congratulation_shift (book : AddressBook) (today : Date) (days : Int)
    (e : BirthdayEntry) (he : e ∈ get_upcoming_birthdays book today days) :
    ∃ r, r ∈ book.data.map Prod.snd ∧ ∃ bd, r.birthday = some bd
      ∧ e.name = r.name
      ∧ e.birthday = fmtDate (candidateDate bd today)
      ∧ e.congratulation_date = fmtDate (specCongratulation (candidateDate bd today)) := by
  unfold get_upcoming_birthdays at he
  rw [List.mem_filterMap] at he
  obtain ⟨r, hr, hpr⟩ := he
  refine ⟨r, hr, ?_⟩
  cases hbd : r.birthday with
  | none =>
    unfold processRecord at hpr
    rw [hbd] at hpr
    exact Option.noConfusion hpr
  | some bd =>
    rw [processRecord_some today days r bd hbd] at hpr
    refine ⟨bd, rfl, ?_⟩
    by_cases hcond : (0 ≤ (toOrdinal (candidateDate bd today) : Int) - (toOrdinal today : Int)
        ∧ (toOrdinal (candidateDate bd today) : Int) - (toOrdinal today : Int) ≤ days)
    · rw [if_pos hcond] at hpr
      injection hpr with hpr
      rw [← hpr, congratulation_eq_spec]
      exact ⟨rfl, rfl, rfl⟩
    · rw [if_neg hcond] at hpr
      exact Option.noConfusion hpr

/-- Witness for C2: today Monday 10.06.2024 and a birthday on Saturday
15.06.1990 puts the candidate on Saturday 15.06.2024, shifting the
congratulation date to Monday 17.06.2024. -/
theorem congratulation_shift_witness :
    (⟨"John", "15.06.2024", "17.06.2024"⟩ : BirthdayEntry) ∈
      get_upcoming_birthdays ⟨[("John", ⟨"John", [], some ⟨1990, 6, 15⟩⟩)]⟩ ⟨2024, 6, 10⟩ 7
    ∧ ∃ r, r ∈ (⟨[("John", ⟨"John", [], some ⟨1990, 6, 15⟩⟩)]⟩ :
          AddressBook).data.map Prod.snd ∧ ∃ bd, r.birthday = some bd
        ∧ (⟨"John", "15.06.2024", "17.06.2024"⟩ : BirthdayEntry).name = r.name
        ∧ (⟨"John", "15.06.2024", "17.06.2024"⟩ : BirthdayEntry).birthday =
            fmtDate (candidateDate bd ⟨2024, 6, 10⟩)
        ∧ (⟨"John", "15.06.2024", "17.06.2024"⟩ : BirthdayEntry).congratulation_date =
            fmtDate (specCongratulation (candidateDate bd ⟨2024, 6, 10⟩)) :=
  ⟨by decide, congratulation_shift ⟨[("John", ⟨"John", [], some ⟨1990, 6, 15⟩⟩)]⟩
    ⟨2024, 6, 10⟩ 7 ⟨"John", "15.06.2024", "17.06.2024"⟩ (by decide)⟩

/-! Claim C5: birthday parsing. Lemmas about the strptime pattern
alternatives. -/

theorem dayTwoVal_dot (c : Char) : dayTwoVal c '.' = none := by
  unfold dayTwoVal
  by_cases h1 : c = '3'
  · rw [if_pos h1, if_neg (by decide)]
  · rw [if_neg h1]
    by_cases h2 : c = '1' ∨ c = '2'
    · rw [if_pos h2]
      rfl
    · rw [if_neg h2]
      by_cases h3 : c = '0'
      · rw [if_pos h3, if_neg (by decide)]
      · rw [if_neg h3]

theorem dayTwoVal_space (c : Char) : dayTwoVal ' ' c = none := by
  unfold dayTwoVal
  rw [if_neg (by decide), if_neg (by decide), if_neg (by decide)]

theorem monthTwoVal_dot (c : Char) : monthTwoVal c '.' = none := by
  unfold monthTwoVal
  by_cases h1 : c = '1'
  · rw [if_pos h1, if_neg (by decide)]
  · rw [if_neg h1]
    by_cases h2 : c = '0'
    · rw [if_pos h2, if_neg (by decide)]
    · rw [if_neg h2]

theorem dayTwoVal_iff {c1 c2 : Char} {d : Nat} :
    dayTwoVal c1 c2 = some d ↔
      ('0' ≤ c1 ∧ c1 ≤ '3' ∧ ∃ v, decDigitVal c2 = some v ∧
        d = 10 * (c1.toNat - 48) + v ∧ 1 ≤ d ∧ d ≤ 31 ∧
        ((c1 = '0' ∨ c1 = '3') → c2 ≤ '9')) := by
  constructor
  · intro h
    unfold dayTwoVal at h
    by_cases h1 : c1 = '3'
    · rw [if_pos h1] at h
      by_cases h2 : c2 = '0' ∨ c2 = '1'
      · rw [if_pos h2] at h
        subst h1
        rcases h2 with h2 | h2 <;> subst h2 <;> injection h with h <;> subst h
        · exact ⟨by decide, by decide, 0, by decide, by decide, by decide, by decide,
            fun _ => by decide⟩
        · exact ⟨by decide, by decide, 1, by decide, by decide, by decide, by decide,
            fun _ => by decide⟩
      · rw [if_neg h2] at h
        exact Option.noConfusion h
    · rw [if_neg h1] at h
      by_cases h2 : c1 = '1' ∨ c1 = '2'
      · rw [if_pos h2] at h
        cases hdv : decDigitVal c2 with
        | none =>
          rw [hdv] at h
          exact Option.noConfusion h
        | some v =>
          rw [hdv] at h
          injection h with h
          have hv9 := decDigitVal_le_9 hdv
          rcases h2 with h2 | h2 <;> subst h2
          · have hd' : 10 * (('1' : Char).toNat - 48) + v = d := h
            have h49 : ('1' : Char).toNat = 49 := by decide
            exact ⟨by decide, by decide, v, rfl, hd'.symm, by omega, by omega, fun hc => by
              rcases hc with hc | hc <;> exact absurd hc (by decide)⟩
          · have hd' : 10 * (('2' : Char).toNat - 48) + v = d := h
            have h50 : ('2' : Char).toNat = 50 := by decide
            exact ⟨by decide, by decide, v, rfl, hd'.symm, by omega, by omega, fun hc => by
              rcases hc with hc | hc <;> exact absurd hc (by decide)⟩
      · rw [if_neg h2] at h
        by_cases h3 : c1 = '0'
        · rw [if_pos h3] at h
          by_cases h4 : '1' ≤ c2 ∧ c2 ≤ '9'
          · rw [if_pos h4] at h
            subst h3
            obtain ⟨h4a, h4b⟩ := h4
            injection h with h
            subst h
            have h4a' : ('1' : Char).toNat ≤ c2.toNat := char_le_iff_toNat.mp h4a
            have h4b' : c2.toNat ≤ ('9' : Char).toNat := char_le_iff_toNat.mp h4b
            have e1 : ('1' : Char).toNat = 49 := by decide
            have e9 : ('9' : Char).toNat = 57 := by decide
            have e0 : ('0' : Char).toNat = 48 := by decide
            have h0c2 : '0' ≤ c2 := char_le_iff_toNat.mpr (by omega)
            exact ⟨by decide, by decide, c2.toNat - 48,
              decDigitVal_of_ascii h0c2 h4b, by omega, by omega, by omega,
              fun _ => h4b⟩
          · rw [if_neg h4] at h
            exact Option.noConfusion h
        · rw [if_neg h3] at h
          exact Option.noConfusion h
  · rintro ⟨h0, h3, v, hdv, hd, hd1, hd31, hcond⟩
    have h0' : ('0' : Char).toNat ≤ c1.toNat := char_le_iff_toNat.mp h0
    have h3' : c1.toNat ≤ ('3' : Char).toNat := char_le_iff_toNat.mp h3
    have e0 : ('0' : Char).toNat = 48 := by decide
    have e3 : ('3' : Char).toNat = 51 := by decide
    have hv9 := decDigitVal_le_9 hdv
    have hcase : c1.toNat = 48 ∨ c1.toNat = 49 ∨ c1.toNat = 50 ∨ c1.toNat = 51 := by omega
    rcases hcase with hc | hc | hc | hc
    · have hc1 : c1 = '0' := char_toNat_eq (by rw [hc]; decide)
      subst hc1
      obtain ⟨ha, hb, hveq, h48⟩ := decDigitVal_ascii hdv (hcond (Or.inl rfl))
      have hge : '1' ≤ c2 := char_le_iff_toNat.mpr (by
        have e1 : ('1' : Char).toNat = 49 := by decide
        omega)
      unfold dayTwoVal
      rw [if_neg (by decide), if_neg (by decide), if_pos rfl, if_pos ⟨hge, hb⟩]
      exact congrArg some (by omega)
    · have hc1 : c1 = '1' := char_toNat_eq (by rw [hc]; decide)
      subst hc1
      unfold dayTwoVal
      rw [if_neg (by decide), if_pos (Or.inl rfl), hdv]
      exact congrArg some hd.symm
    · have hc1 : c1 = '2' := char_toNat_eq (by rw [hc]; decide)
      subst hc1
      unfold dayTwoVal
      rw [if_neg (by decide), if_pos (Or.inr rfl), hdv]
      exact congrArg some hd.symm
    · have hc1 : c1 = '3' := char_toNat_eq (by rw [hc]; decide)
      subst hc1
      obtain ⟨ha, hb, hveq, h48⟩ := decDigitVal_ascii hdv (hcond (Or.inr rfl))
      have hc2 : c2.toNat = 48 ∨ c2.toNat = 49 := by omega
      unfold dayTwoVal
      rcases hc2 with hc2 | hc2
      · have hcc : c2 = '0' := char_toNat_eq (by rw [hc2]; decide)
        subst hcc
        rw [if_pos rfl, if_pos (Or.inl rfl)]
        exact congrArg some (by
          have e48 : ('0' : Char).toNat = 48 := by decide
          omega)
      · have hcc : c2 = '1' := char_toNat_eq (by rw [hc2]; decide)
        subst hcc
        rw [if_pos rfl, if_pos (Or.inr rfl)]
        exact congrArg some (by
          have e49 : ('1' : Char).toNat = 49 := by decide
          omega)

theorem monthTwoVal_iff {c1 c2 : Char} {m : Nat} :
    monthTwoVal c1 c2 = some m ↔
      ((c1 = '0' ∨ c1 = '1') ∧ '0' ≤ c2 ∧ c2 ≤ '9' ∧
        m = 10 * (c1.toNat - 48) + (c2.toNat - 48) ∧ 1 ≤ m ∧ m ≤ 12) := by
  constructor
  · intro h
    unfold monthTwoVal at h
    by_cases h1 : c1 = '1'
    · rw [if_pos h1] at h
      by_cases h2 : c2 = '0' ∨ c2 = '1' ∨ c2 = '2'
      · rw [if_pos h2] at h
        subst h1
        injection h with h
        rcases h2 with h2 | h2 | h2 <;> subst h2 <;> subst h <;>
          exact ⟨Or.inr rfl, by decide, by decide, by decide, by decide, by decide⟩
      · rw [if_neg h2] at h
        exact Option.noConfusion h
    · rw [if_neg h1] at h
      by_cases h2 : c1 = '0'
      · rw [if_pos h2] at h
        by_cases h3 : '1' ≤ c2 ∧ c2 ≤ '9'
        · rw [if_pos h3] at h
          subst h2
          obtain ⟨h3a, h3b⟩ := h3
          injection h with h
          subst h
          have h3a' : ('1' : Char).toNat ≤ c2.toNat := char_le_iff_toNat.mp h3a
          have h3b' : c2.toNat ≤ ('9' : Char).toNat := char_le_iff_toNat.mp h3b
          have e1 : ('1' : Char).toNat = 49 := by decide
          have e9 : ('9' : Char).toNat = 57 := by decide
          have e0 : ('0' : Char).toNat = 48 := by decide
          exact ⟨Or.inl rfl, char_le_iff_toNat.mpr (by omega), h3b,
            by omega, by omega, by omega⟩
        · rw [if_neg h3] at h
          exact Option.noConfusion h
      · rw [if_neg h2] at h
        exact Option.noConfusion h
  · rintro ⟨hc1, ha, hb, hm, h1, h12⟩
    have ha' : ('0' : Char).toNat ≤ c2.toNat := char_le_iff_toNat.mp ha
    have hb' : c2.toNat ≤ ('9' : Char).toNat := char_le_iff_toNat.mp hb
    have e0 : ('0' : Char).toNat = 48 := by decide
    have e9 : ('9' : Char).toNat = 57 := by decide
    rcases hc1 with hc1 | hc1 <;> subst hc1
    · have e048 : (('0' : Char).toNat - 48) = 0 := by decide
      have hge : '1' ≤ c2 := char_le_iff_toNat.mpr (by
        have e1 : ('1' : Char).toNat = 49 := by decide
        omega)
      unfold monthTwoVal
      rw [if_neg (by decide), if_pos rfl, if_pos ⟨hge, hb⟩]
      exact congrArg some (by omega)
    · have e110 : (('1' : Char).toNat - 48) = 1 := by decide
      have hcase : c2.toNat = 48 ∨ c2.toNat = 49 ∨ c2.toNat = 50 := by omega
      unfold monthTwoVal
      rw [if_pos rfl]
      rcases hcase with hc | hc | hc
      · have hcc : c2 = '0' := char_toNat_eq (by rw [hc]; decide)
        subst hcc
        rw [if_pos (Or.inl rfl)]
        exact congrArg some (by
          have e48 : ('0' : Char).toNat = 48 := by decide
          omega)
      · have hcc : c2 = '1' := char_toNat_eq (by rw [hc]; decide)
        subst hcc
        rw [if_pos (Or.inr (Or.inl rfl))]
        exact congrArg some (by
          have e49 : ('1' : Char).toNat = 49 := by decide
          omega)
      · have hcc : c2 = '2' := char_toNat_eq (by rw [hc]; decide)
        subst hcc
        rw [if_pos (Or.inr (Or.inr rfl))]
        exact congrArg some (by
          have e50 : ('2' : Char).toNat = 50 := by decide
          omega)

/-! Inversion and evaluation lemmas for the alternative matchers. -/

theorem matchDayTwo_eq_some {cs : List Char} {d : Nat} {rest : List Char}
    (h : matchDayTwo cs = some (d, rest)) :
    ∃ c1 c2, cs = c1 :: c2 :: rest ∧ dayTwoVal c1 c2 = some d := by
  match cs with
  | [] => exact Option.noConfusion h
  | [c1] => exact Option.noConfusion h
  | c1 :: c2 :: rest' =>
    simp only [matchDayTwo] at h
    cases hdv : dayTwoVal c1 c2 with
    | none =>
      rw [hdv] at h
      exact Option.noConfusion h
    | some d0 =>
      rw [hdv] at h
      injection h with h
      injection h with h1 h2
      subst h1
      subst h2
      exact ⟨c1, c2, rfl, hdv⟩

theorem matchDayTwo_cons {c1 c2 : Char} {d : Nat} (rest : List Char)
    (h : dayTwoVal c1 c2 = some d) :
    matchDayTwo (c1 :: c2 :: rest) = some (d, rest) := by
  simp only [matchDayTwo]
  rw [h]
  rfl

theorem matchDayTwo_none {c1 c2 : Char} (rest : List Char)
    (h : dayTwoVal c1 c2 = none) :
    matchDayTwo (c1 :: c2 :: rest) = none := by
  simp only [matchDayTwo]
  rw [h]
  rfl

theorem matchOne_eq_some {cs : List Char} {d : Nat} {rest : List Char}
    (h : matchOne cs = some (d, rest)) :
    ∃ c, cs = c :: rest ∧ '1' ≤ c ∧ c ≤ '9' ∧ d = c.toNat - 48 := by
  match cs with
  | [] => exact Option.noConfusion h
  | c :: rest' =>
    simp only [matchOne] at h
    by_cases hc : '1' ≤ c ∧ c ≤ '9'
    · rw [if_pos hc] at h
      injection h with h
      injection h with h1 h2
      subst h1
      subst h2
      exact ⟨c, rfl, hc.1, hc.2, rfl⟩
    · rw [if_neg hc] at h
      exact Option.noConfusion h

theorem matchOne_cons {c : Char} (rest : List Char) (h1 : '1' ≤ c) (h2 : c ≤ '9') :
    matchOne (c :: rest) = some (c.toNat - 48, rest) := by
  simp only [matchOne]
  rw [if_pos ⟨h1, h2⟩]

theorem matchOne_space (rest : List Char) : matchOne (' ' :: rest) = none := by
  simp only [matchOne]
  rw [if_neg (by rintro ⟨h, _⟩; exact absurd h (by decide))]

theorem matchDaySpace_eq_some {cs : List Char} {d : Nat} {rest : List Char}
    (h : matchDaySpace cs = some (d, rest)) :
    ∃ c, cs = ' ' :: c :: rest ∧ '1' ≤ c ∧ c ≤ '9' ∧ d = c.toNat - 48 := by
  match cs with
  | [] => exact Option.noConfusion h
  | [c] => exact Option.noConfusion h
  | c0 :: c :: rest' =>
    simp only [matchDaySpace] at h
    by_cases hc : c0 = ' ' ∧ '1' ≤ c ∧ c ≤ '9'
    · rw [if_pos hc] at h
      injection h with h
      injection h with h1 h2
      subst h1
      subst h2
      obtain ⟨hsp, hc1, hc9⟩ := hc
      subst hsp
      exact ⟨c, rfl, hc1, hc9, rfl⟩
    · rw [if_neg hc] at h
      exact Option.noConfusion h

theorem matchDaySpace_cons {c : Char} (rest : List Char) (h1 : '1' ≤ c) (h2 : c ≤ '9') :
    matchDaySpace (' ' :: c :: rest) = some (c.toNat - 48, rest) := by
  simp [matchDaySpace, h1, h2]

theorem matchDaySpace_not_space {c0 c : Char} (rest : List Char) (h : c0 ≠ ' ') :
    matchDaySpace (c0 :: c :: rest) = none := by
  simp [matchDaySpace, h]

theorem matchDaySpace_dot {c0 : Char} (rest : List Char) :
    matchDaySpace (c0 :: '.' :: rest) = none := by
  have hdot : ¬('1' ≤ ('.' : Char)) := by decide
  simp [matchDaySpace, hdot]

theorem matchMonthTwo_eq_some {cs : List Char} {m : Nat} {rest : List Char}
    (h : matchMonthTwo cs = some (m, rest)) :
    ∃ c1 c2, cs = c1 :: c2 :: rest ∧ monthTwoVal c1 c2 = some m := by
  match cs with
  | [] => exact Option.noConfusion h
  | [c1] => exact Option.noConfusion h
  | c1 :: c2 :: rest' =>
    simp only [matchMonthTwo] at h
    cases hdv : monthTwoVal c1 c2 with
    | none =>
      rw [hdv] at h
      exact Option.noConfusion h
    | some m0 =>
      rw [hdv] at h
      injection h with h
      injection h with h1 h2
      subst h1
      subst h2
      exact ⟨c1, c2, rfl, hdv⟩

theorem matchMonthTwo_cons {c1 c2 : Char} {m : Nat} (rest : List Char)
    (h : monthTwoVal c1 c2 = some m) :
    matchMonthTwo (c1 :: c2 :: rest) = some (m, rest) := by
  simp only [matchMonthTwo]
  rw [h]
  rfl

theorem matchMonthTwo_none {c1 c2 : Char} (rest : List Char)
    (h : monthTwoVal c1 c2 = none) :
    matchMonthTwo (c1 :: c2 :: rest) = none := by
  simp only [matchMonthTwo]
  rw [h]
  rfl

/-! Lemmas about reading a fixed number of digits. -/

theorem readDigits_sound : ∀ (n acc v : Nat) (cs rest : List Char),
    readDigits n acc cs = some (v, rest) →
    ∃ ds, cs = ds ++ rest ∧ ds.length = n ∧ AllDigits ds ∧
      v = ds.foldl (fun a c => a * 10 + ((decDigitVal c).getD 0)) acc := by
  intro n
  induction n with
  | zero =>
    intro acc v cs rest h
    unfold readDigits at h
    injection h with h
    injection h with h1 h2
    subst h1
    subst h2
    exact ⟨[], rfl, rfl, by intro c hc; exact absurd hc (List.not_mem_nil c), rfl⟩
  | succ n ih =>
    intro acc v cs rest h
    match cs with
    | [] => exact Option.noConfusion h
    | c :: cs' =>
      unfold readDigits at h
      cases hdv : decDigitVal c with
      | none =>
        rw [hdv] at h
        exact Option.noConfusion h
      | some w =>
        rw [hdv] at h
        obtain ⟨ds, h1, h2, h3, h4⟩ := ih (acc * 10 + w) v cs' rest h
        refine ⟨c :: ds, by rw [h1]; rfl, by rw [List.length_cons, h2], ?_, ?_⟩
        · intro x hx
          rcases List.mem_cons.mp hx with hx | hx
          · subst hx
            rw [hdv]
            rfl
          · exact h3 x hx
        · rw [List.foldl_cons, hdv]
          exact h4

theorem readDigits_complete : ∀ (ds rest : List Char) (acc : Nat), AllDigits ds →
    readDigits ds.length acc (ds ++ rest) =
      some (ds.foldl (fun a c => a * 10 + ((decDigitVal c).getD 0)) acc, rest) := by
  intro ds
  induction ds with
  | nil =>
    intro rest acc _
    rfl
  | cons c ds ih =>
    intro rest acc hall
    have hc : (decDigitVal c).isSome := hall c (List.mem_cons_self _ _)
    obtain ⟨w, hw⟩ := Option.isSome_iff_exists.mp hc
    show readDigits (ds.length + 1) acc (c :: (ds ++ rest)) = _
    simp only [readDigits, hw]
    rw [ih rest (acc * 10 + w) (fun x hx => hall x (List.mem_cons_of_mem _ hx)),
      List.foldl_cons, hw]
    rfl

/-! Inversion and evaluation lemmas for one backtracking attempt. -/

theorem dotThen_dot (k : List Char → Option (Nat × Nat × Nat)) (cs : List Char) :
    dotThen k ('.' :: cs) = k cs := by
  simp [dotThen]

theorem dotThen_sound {k : List Char → Option (Nat × Nat × Nat)} {cs : List Char}
    {t : Nat × Nat × Nat} (h : dotThen k cs = some t) :
    ∃ cs', cs = '.' :: cs' ∧ k cs' = some t := by
  match cs with
  | [] => exact Option.noConfusion h
  | c :: cs' =>
    simp only [dotThen] at h
    by_cases hc : c = '.'
    · subst hc
      rw [if_pos rfl] at h
      exact ⟨cs', rfl, h⟩
    · rw [if_neg hc] at h
      exact Option.noConfusion h

theorem yearPhase_complete {cs2 : List Char} {y : Nat} (d m : Nat)
    (h : readDigits 4 0 cs2 = some (y, [])) :
    yearPhase d m cs2 = some (d, m, y) := by
  simp [yearPhase, h]

theorem yearPhase_sound {cs2 : List Char} {d m d' m' y' : Nat}
    (h : yearPhase d m cs2 = some (d', m', y')) :
    d' = d ∧ m' = m ∧ readDigits 4 0 cs2 = some (y', []) := by
  cases hr : readDigits 4 0 cs2 with
  | none =>
    simp only [yearPhase, hr] at h
    exact Option.noConfusion h
  | some pr =>
    obtain ⟨y, rest3⟩ := pr
    simp only [yearPhase, hr] at h
    by_cases h3 : rest3 = []
    · subst h3
      rw [if_pos rfl] at h
      injection h with h
      injection h with h1 h
      injection h with h2 h3
      subst h1
      subst h2
      subst h3
      exact ⟨rfl, rfl, rfl⟩
    · rw [if_neg h3] at h
      exact Option.noConfusion h

theorem monthPhase_complete {monthM : List Char → Option (Nat × List Char)}
    {cs1 ys : List Char} {m y : Nat} (d : Nat)
    (hm : monthM cs1 = some (m, '.' :: ys)) (hy : readDigits 4 0 ys = some (y, [])) :
    monthPhase monthM d cs1 = some (d, m, y) := by
  unfold monthPhase
  rw [hm]
  show dotThen (yearPhase d m) ('.' :: ys) = some (d, m, y)
  rw [dotThen_dot]
  exact yearPhase_complete d m hy

theorem monthPhase_none {monthM : List Char → Option (Nat × List Char)}
    {cs1 : List Char} (d : Nat) (hm : monthM cs1 = none) :
    monthPhase monthM d cs1 = none := by
  unfold monthPhase
  rw [hm]

theorem monthPhase_sound {monthM : List Char → Option (Nat × List Char)}
    {cs1 : List Char} {d d' m' y' : Nat}
    (h : monthPhase monthM d cs1 = some (d', m', y')) :
    ∃ ys, monthM cs1 = some (m', '.' :: ys) ∧ readDigits 4 0 ys = some (y', []) ∧
      d' = d := by
  cases hm : monthM cs1 with
  | none =>
    simp only [monthPhase, hm] at h
    exact Option.noConfusion h
  | some pr =>
    obtain ⟨m0, rest2⟩ := pr
    simp only [monthPhase, hm] at h
    obtain ⟨cs', hcs', hk⟩ := dotThen_sound h
    obtain ⟨hd, hm0, hy⟩ := yearPhase_sound hk
    subst hd
    subst hm0
    subst hcs'
    exact ⟨cs', rfl, hy, rfl⟩

theorem tryDM_day_none {dayM monthM : List Char → Option (Nat × List Char)}
    {cs : List Char} (h : dayM cs = none) : tryDM dayM monthM cs = none := by
  unfold tryDM
  rw [h]

theorem tryDM_complete {dayM monthM : List Char → Option (Nat × List Char)}
    {cs cs1 ys : List Char} {d m y : Nat}
    (hday : dayM cs = some (d, '.' :: cs1)) (hmonth : monthM cs1 = some (m, '.' :: ys))
    (hyear : readDigits 4 0 ys = some (y, [])) :
    tryDM dayM monthM cs = some (d, m, y) := by
  unfold tryDM
  rw [hday]
  show dotThen (monthPhase monthM d) ('.' :: cs1) = some (d, m, y)
  rw [dotThen_dot]
  exact monthPhase_complete d hmonth hyear

theorem tryDM_month_fails {dayM monthM : List Char → Option (Nat × List Char)}
    {cs cs1 : List Char} {d : Nat}
    (hday : dayM cs = some (d, '.' :: cs1)) (hmonth : monthPhase monthM d cs1 = none) :
    tryDM dayM monthM cs = none := by
  unfold tryDM
  rw [hday]
  show dotThen (monthPhase monthM d) ('.' :: cs1) = none
  rw [dotThen_dot]
  exact hmonth

theorem tryDM_sound {dayM monthM : List Char → Option (Nat × List Char)}
    {cs : List Char} {d m y : Nat} (h : tryDM dayM monthM cs = some (d, m, y)) :
    ∃ cs1 ys, dayM cs = some (d, '.' :: cs1) ∧ monthM cs1 = some (m, '.' :: ys) ∧
      readDigits 4 0 ys = some (y, []) := by
  cases hday : dayM cs with
  | none =>
    simp only [tryDM, hday] at h
    exact Option.noConfusion h
  | some pr =>
    obtain ⟨d0, rest1⟩ := pr
    simp only [tryDM, hday] at h
    obtain ⟨cs1, hcs1, hk⟩ := dotThen_sound h
    obtain ⟨ys, hm, hy, hd⟩ := monthPhase_sound hk
    subst hd
    subst hcs1
    exact ⟨cs1, ys, rfl, hm, hy⟩

/-! Soundness: each matcher success yields a spec-side component. -/

theorem orElse_none_left {α : Type} (f : Unit → Option α) :
    (none : Option α).orElse f = f () := rfl

theorem orElse_some_left {α : Type} (v : α) (f : Unit → Option α) :
    (some v).orElse f = some v := rfl

theorem orElse_inv {α : Type} {x : Option α} {f : Unit → Option α} {v : α}
    (h : x.orElse f = some v) : x = some v ∨ (x = none ∧ f () = some v) := by
  cases x with
  | none => exact Or.inr ⟨rfl, h⟩
  | some w => exact Or.inl h

theorem specDay_of_dayTwo {cs rest : List Char} {d : Nat}
    (h : matchDayTwo cs = some (d, rest)) :
    ∃ ds, cs = ds ++ rest ∧ SpecDay ds d := by
  obtain ⟨c1, c2, hcs, hdv⟩ := matchDayTwo_eq_some h
  obtain ⟨h0, h3, v, hdvv, hd, h1d, h31, hcond⟩ := dayTwoVal_iff.mp hdv
  exact ⟨[c1, c2], by rw [hcs]; rfl,
    Or.inr (Or.inr ⟨c1, c2, v, rfl, h0, h3, hdvv, hd, h1d, h31, hcond⟩)⟩

theorem specDay_of_one {cs rest : List Char} {d : Nat}
    (h : matchOne cs = some (d, rest)) :
    ∃ ds, cs = ds ++ rest ∧ SpecDay ds d := by
  obtain ⟨c, hcs, h1, h9, hd⟩ := matchOne_eq_some h
  exact ⟨[c], by rw [hcs]; rfl, Or.inl ⟨c, rfl, h1, h9, hd⟩⟩

theorem specDay_of_space {cs rest : List Char} {d : Nat}
    (h : matchDaySpace cs = some (d, rest)) :
    ∃ ds, cs = ds ++ rest ∧ SpecDay ds d := by
  obtain ⟨c, hcs, h1, h9, hd⟩ := matchDaySpace_eq_some h
  exact ⟨[' ', c], by rw [hcs]; rfl, Or.inr (Or.inl ⟨c, rfl, h1, h9, hd⟩)⟩

theorem specMonth_of_two {cs rest : List Char} {m : Nat}
    (h : matchMonthTwo cs = some (m, rest)) :
    ∃ ms, cs = ms ++ rest ∧ SpecMonth ms m := by
  obtain ⟨c1, c2, hcs, hmv⟩ := matchMonthTwo_eq_some h
  obtain ⟨hc1, ha, hb, hm, h1m, h12⟩ := monthTwoVal_iff.mp hmv
  exact ⟨[c1, c2], by rw [hcs]; rfl, Or.inr ⟨c1, c2, rfl, hc1, ha, hb, hm, h1m, h12⟩⟩

theorem specMonth_of_one {cs rest : List Char} {m : Nat}
    (h : matchOne cs = some (m, rest)) :
    ∃ ms, cs = ms ++ rest ∧ SpecMonth ms m := by
  obtain ⟨c, hcs, h1, h9, hm⟩ := matchOne_eq_some h
  exact ⟨[c], by rw [hcs]; rfl, Or.inl ⟨c, rfl, h1, h9, hm⟩⟩

theorem spec_of_tryDM {dayM monthM : List Char → Option (Nat × List Char)}
    {cs : List Char} {d m y : Nat} (h : tryDM dayM monthM cs = some (d, m, y))
    (hday : ∀ cs' rest d', dayM cs' = some (d', rest) →
      ∃ ds, cs' = ds ++ rest ∧ SpecDay ds d')
    (hmonth : ∀ cs' rest m', monthM cs' = some (m', rest) →
      ∃ ms, cs' = ms ++ rest ∧ SpecMonth ms m') :
    SpecLooseMatch cs d m y := by
  obtain ⟨cs1, ys, hd, hm, hy⟩ := tryDM_sound h
  obtain ⟨ds, hds, hsd⟩ := hday cs ('.' :: cs1) d hd
  obtain ⟨ms, hms, hsm⟩ := hmonth cs1 ('.' :: ys) m hm
  obtain ⟨ds2, h1, h2, h3, h4⟩ := readDigits_sound 4 0 y ys [] hy
  rw [List.append_nil] at h1
  subst h1
  exact ⟨ds, ms, ys, by rw [hds, hms], hsd, hsm, h2, h3, h4.symm⟩

theorem matchDMY_sound {cs : List Char} {d m y : Nat}
    (h : matchDMY cs = some (d, m, y)) : SpecLooseMatch cs d m y := by
  unfold matchDMY at h
  rcases orElse_inv h with h1 | ⟨_, h⟩
  · exact spec_of_tryDM h1 (fun _ _ _ => specDay_of_dayTwo)
      (fun _ _ _ => specMonth_of_two)
  rcases orElse_inv h with h2 | ⟨_, h⟩
  · exact spec_of_tryDM h2 (fun _ _ _ => specDay_of_dayTwo)
      (fun _ _ _ => specMonth_of_one)
  rcases orElse_inv h with h3 | ⟨_, h⟩
  · exact spec_of_tryDM h3 (fun _ _ _ => specDay_of_one)
      (fun _ _ _ => specMonth_of_two)
  rcases orElse_inv h with h4 | ⟨_, h⟩
  · exact spec_of_tryDM h4 (fun _ _ _ => specDay_of_one)
      (fun _ _ _ => specMonth_of_one)
  rcases orElse_inv h with h5 | ⟨_, h⟩
  · exact spec_of_tryDM h5 (fun _ _ _ => specDay_of_space)
      (fun _ _ _ => specMonth_of_two)
  · exact spec_of_tryDM h (fun _ _ _ => specDay_of_space)
      (fun _ _ _ => specMonth_of_one)

/-! Completeness: a spec-side decomposition makes the matching attempt
succeed and every earlier attempt fail. -/

theorem readDigits_of_spec {ys : List Char} {y : Nat} (h4 : ys.length = 4)
    (hall : AllDigits ys) (hval : digitsVal ys = y) :
    readDigits 4 0 ys = some (y, []) := by
  have h := readDigits_complete ys [] 0 hall
  rw [List.append_nil, h4] at h
  have hfold : List.foldl (fun a c => a * 10 + ((decDigitVal c).getD 0)) 0 ys = y := hval
  rw [hfold] at h
  exact h

theorem matchDMY_complete {cs : List Char} {d m y : Nat}
    (h : SpecLooseMatch cs d m y) : matchDMY cs = some (d, m, y) := by
  obtain ⟨ds, ms, ys, hsplit, hsd, hsm, h4, hall, hval⟩ := h
  have hyr : readDigits 4 0 ys = some (y, []) := readDigits_of_spec h4 hall hval
  have hmonthTwo : SpecMonth ms m →
      (∃ c, ms = [c]) ∨ matchMonthTwo (ms ++ '.' :: ys) = some (m, '.' :: ys) := by
    rintro (⟨c, hms, _⟩ | ⟨c1, c2, hms, hc1, ha, hb, hm, h1m, h12⟩)
    · exact Or.inl ⟨c, hms⟩
    · refine Or.inr ?_
      rw [hms]
      exact matchMonthTwo_cons _ (monthTwoVal_iff.mpr ⟨hc1, ha, hb, hm, h1m, h12⟩)
  rcases hsd with ⟨c, hds, h1c, h9c, hd⟩ | ⟨c, hds, h1c, h9c, hd⟩ |
    ⟨c1, c2, v, hds, h0, h3, hdv, hd, h1d, h31, hcond⟩
  · -- one-digit day
    have hdayTwoFail : matchDayTwo cs = none := by
      rw [hsplit, hds]
      exact matchDayTwo_none _ (dayTwoVal_dot c)
    have hA1 : tryDM matchDayTwo matchMonthTwo cs = none := tryDM_day_none hdayTwoFail
    have hA2 : tryDM matchDayTwo matchOne cs = none := tryDM_day_none hdayTwoFail
    have hdayOk : matchOne cs = some (d, '.' :: (ms ++ '.' :: ys)) := by
      rw [hsplit, hds, hd]
      exact matchOne_cons _ h1c h9c
    rcases hsm with ⟨c0, hms, h1m0, h9m0, hm0⟩ | hsm2
    · have hmonthTwoFail : matchMonthTwo (ms ++ '.' :: ys) = none := by
        rw [hms]
        exact matchMonthTwo_none _ (monthTwoVal_dot c0)
      have hA3 : tryDM matchOne matchMonthTwo cs = none :=
        tryDM_month_fails hdayOk (monthPhase_none d hmonthTwoFail)
      have hmonthOk : matchOne (ms ++ '.' :: ys) = some (m, '.' :: ys) := by
        rw [hms, hm0]
        exact matchOne_cons _ h1m0 h9m0
      have hA4 : tryDM matchOne matchOne cs = some (d, m, y) :=
        tryDM_complete hdayOk hmonthOk hyr
      simp only [matchDMY, hA1, hA2, hA3, hA4, orElse_none_left, orElse_some_left]
    · obtain ⟨c1, c2, hms, hc1, ha, hb, hm, h1m, h12⟩ := hsm2
      have hmonthOk : matchMonthTwo (ms ++ '.' :: ys) = some (m, '.' :: ys) := by
        rw [hms]
        exact matchMonthTwo_cons _ (monthTwoVal_iff.mpr ⟨hc1, ha, hb, hm, h1m, h12⟩)
      have hA3 : tryDM matchOne matchMonthTwo cs = some (d, m, y) :=
        tryDM_complete hdayOk hmonthOk hyr
      simp only [matchDMY, hA1, hA2, hA3, orElse_none_left, orElse_some_left]
  · -- space-digit day
    have hdayTwoFail : matchDayTwo cs = none := by
      rw [hsplit, hds]
      exact matchDayTwo_none _ (dayTwoVal_space c)
    have hdayOneFail : matchOne cs = none := by
      rw [hsplit, hds]
      exact matchOne_space _
    have hA1 : tryDM matchDayTwo matchMonthTwo cs = none := tryDM_day_none hdayTwoFail
    have hA2 : tryDM matchDayTwo matchOne cs = none := tryDM_day_none hdayTwoFail
    have hA3 : tryDM matchOne matchMonthTwo cs = none := tryDM_day_none hdayOneFail
    have hA4 : tryDM matchOne matchOne cs = none := tryDM_day_none hdayOneFail
    have hdayOk : matchDaySpace cs = some (d, '.' :: (ms ++ '.' :: ys)) := by
      rw [hsplit, hds, hd]
      exact matchDaySpace_cons _ h1c h9c
    rcases hsm with ⟨c0, hms, h1m0, h9m0, hm0⟩ | hsm2
    · have hmonthTwoFail : matchMonthTwo (ms ++ '.' :: ys) = none := by
        rw [hms]
        exact matchMonthTwo_none _ (monthTwoVal_dot c0)
      have hA5 : tryDM matchDaySpace matchMonthTwo cs = none :=
        tryDM_month_fails hdayOk (monthPhase_none d hmonthTwoFail)
      have hmonthOk : matchOne (ms ++ '.' :: ys) = some (m, '.' :: ys) := by
        rw [hms, hm0]
        exact matchOne_cons _ h1m0 h9m0
      have hA6 : tryDM matchDaySpace matchOne cs = some (d, m, y) :=
        tryDM_complete hdayOk hmonthOk hyr
      simp only [matchDMY, hA1, hA2, hA3, hA4, hA5, hA6, orElse_none_left,
        orElse_some_left]
    · obtain ⟨c1, c2, hms, hc1, ha, hb, hm, h1m, h12⟩ := hsm2
      have hmonthOk : matchMonthTwo (ms ++ '.' :: ys) = some (m, '.' :: ys) := by
        rw [hms]
        exact matchMonthTwo_cons _ (monthTwoVal_iff.mpr ⟨hc1, ha, hb, hm, h1m, h12⟩)
      have hA5 : tryDM matchDaySpace matchMonthTwo cs = some (d, m, y) :=
        tryDM_complete hdayOk hmonthOk hyr
      simp only [matchDMY, hA1, hA2, hA3, hA4, hA5, orElse_none_left, orElse_some_left]
  · -- two-digit day
    have hdayOk : matchDayTwo cs = some (d, '.' :: (ms ++ '.' :: ys)) := by
      rw [hsplit, hds]
      exact matchDayTwo_cons _ (dayTwoVal_iff.mpr ⟨h0, h3, v, hdv, hd, h1d, h31, hcond⟩)
    rcases hsm with ⟨c0, hms, h1m0, h9m0, hm0⟩ | hsm2
    · have hmonthTwoFail : matchMonthTwo (ms ++ '.' :: ys) = none := by
        rw [hms]
        exact matchMonthTwo_none _ (monthTwoVal_dot c0)
      have hA1 : tryDM matchDayTwo matchMonthTwo cs = none :=
        tryDM_month_fails hdayOk (monthPhase_none d hmonthTwoFail)
      have hmonthOk : matchOne (ms ++ '.' :: ys) = some (m, '.' :: ys) := by
        rw [hms, hm0]
        exact matchOne_cons _ h1m0 h9m0
      have hA2 : tryDM matchDayTwo matchOne cs = some (d, m, y) :=
        tryDM_complete hdayOk hmonthOk hyr
      simp only [matchDMY, hA1, hA2, orElse_none_left, orElse_some_left]
    · obtain ⟨c1', c2', hms, hc1, ha, hb, hm, h1m, h12⟩ := hsm2
      have hmonthOk : matchMonthTwo (ms ++ '.' :: ys) = some (m, '.' :: ys) := by
        rw [hms]
        exact matchMonthTwo_cons _ (monthTwoVal_iff.mpr ⟨hc1, ha, hb, hm, h1m, h12⟩)
      have hA1 : tryDM matchDayTwo matchMonthTwo cs = some (d, m, y) :=
        tryDM_complete hdayOk hmonthOk hyr
      simp only [matchDMY, hA1, orElse_some_left]

/-- Counterexample to claim C5 as stated: the text 1.1.2020 does not match
the pattern DD.MM.YYYY, whose day and month have two digits each, yet
Birthday construction succeeds and stores January 1, 2020, because the
strptime day and month patterns also accept a single digit. -/
theorem birthday_counterexample :
    mkBirthday "1.1.2020" = .ok ⟨2020, 1, 1⟩ ∧ ¬ StrictDDMMYYYY "1.1.2020" := by
  refine ⟨rfl, ?_⟩
  rintro ⟨ds, ms, ys, hsplit, hds, hms, hys, _⟩
  have hlen : ("1.1.2020".toList).length = 8 := rfl
  rw [hsplit] at hlen
  simp only [List.length_append, List.length_cons, hds, hms, hys] at hlen
  omega

/-- Claim C5, amended. Birthday construction accepts exactly the strings
matched by the pattern strptime compiles for day.month.year that denote a
real calendar date, storing the parsed date and not the text: the day is
one digit, a space and a digit, or two digits with value 1..31, the month
is one or two digits with value 1..12, the year is exactly four digits,
and the day must exist in that month of that year, with the year at
least 1. Every string of the strict DD.MM.YYYY form that is a real
calendar date is therefore accepted, but so are single-digit forms such
as 1.1.2020; 31.02.2020 and 29.02.2021 fail, and 29.02.2020 succeeds
with the stored date February 29, 2020. -/
theorem birthday_validation :
    (∀ (cs : List Char) (d m y : Nat),
        matchDMY cs = some (d, m, y) ↔ SpecLooseMatch cs d m y)
    ∧ (∀ (s : String) (dt : Date), mkBirthday s = .ok dt ↔
        ∃ d m y, SpecLooseMatch s.toList d m y ∧ 1 ≤ y ∧ d ≤ daysInMonth y m ∧
          dt = ⟨y, m, d⟩)
    ∧ mkBirthday "31.02.2020" = .error (.valueError "Invalid date format. Use DD.MM.YYYY")
    ∧ mkBirthday "29.02.2021" = .error (.valueError "Invalid date format. Use DD.MM.YYYY")
    ∧ mkBirthday "29.02.2020" = .ok ⟨2020, 2, 29⟩ := by
  refine ⟨fun cs d m y => ⟨matchDMY_sound, matchDMY_complete⟩, ?_, rfl, rfl, rfl⟩
  intro s dt
  constructor
  · intro h
    unfold mkBirthday at h
    cases hm : matchDMY s.toList with
    | none =>
      rw [hm] at h
      exact Except.noConfusion h
    | some t =>
      obtain ⟨d, m, y⟩ := t
      rw [hm] at h
      have h' : (if 1 ≤ y ∧ d ≤ daysInMonth y m
          then (Except.ok (⟨y, m, d⟩ : Date) : Except PyErr Date)
          else .error (.valueError "Invalid date format. Use DD.MM.YYYY")) = .ok dt := h
      by_cases hv : 1 ≤ y ∧ d ≤ daysInMonth y m
      · rw [if_pos hv] at h'
        injection h' with h'
        exact ⟨d, m, y, matchDMY_sound hm, hv.1, hv.2, h'.symm⟩
      · rw [if_neg hv] at h'
        exact Except.noConfusion h'
  · rintro ⟨d, m, y, hspec, hy1, hdm, hdt⟩
    unfold mkBirthday
    rw [matchDMY_complete hspec]
    show (if 1 ≤ y ∧ d ≤ daysInMonth y m
        then (Except.ok (⟨y, m, d⟩ : Date) : Except PyErr Date)
        else .error (.valueError "Invalid date format. Use DD.MM.YYYY")) = .ok dt
    rw [if_pos ⟨hy1, hdm⟩, hdt]

/-- Witness for C5 amended: the accepted string 29.02.2020 yields a spec-side
decomposition with a real calendar date. -/
theorem birthday_validation_witness :
    ∃ d m y, SpecLooseMatch ("29.02.2020".toList) d m y ∧ 1 ≤ y ∧
      d ≤ daysInMonth y m ∧ (⟨2020, 2, 29⟩ : Date) = ⟨y, m, d⟩ :=
  (birthday_validation.2.1 "29.02.2020" ⟨2020, 2, 29⟩).mp rfl

end BotV4
